import Mathlib

/-!
Verification development for the `lattice` chunked 2D spatial grid.

The Go source stores weights and coordinates as `float64`.  We embed
`float64` as an idealized exact number: a rational together with the IEEE
special values `+inf`, `-inf` and `nan` (`GFloat` below).  The arithmetic
on the special values follows IEEE 754 (`inf - inf = nan`, `0 * inf = nan`,
comparisons with `nan` are false); arithmetic on finite values is exact
rational arithmetic (rounding is not modelled).  Continuous coordinates
that never interact with the special values are embedded directly as `ℚ`.

The geometry module (`mosaic`) and the queue library (`caravan`) are
external collaborators of the repository; they are modelled from the
spec's collaborator contracts (see the doc comments on `Rectangle` and
`pqPop`).
-/

set_option maxRecDepth 4000

namespace Lattice

/-- Idealized `float64`: exact rational plus IEEE special values. -/
inductive GFloat where
  | fin (q : ℚ)
  | inf
  | ninf
  | nan
deriving DecidableEq, Repr

namespace GFloat

/-- IEEE addition on idealized floats (exact on finite values). -/
def add : GFloat → GFloat → GFloat
  | fin a, fin b => fin (a + b)
  | fin _, inf => inf
  | fin _, ninf => ninf
  | inf, fin _ => inf
  | inf, inf => inf
  | inf, ninf => nan
  | ninf, fin _ => ninf
  | ninf, inf => nan
  | ninf, ninf => ninf
  | nan, _ => nan
  | _, nan => nan

/-- IEEE subtraction on idealized floats (exact on finite values). -/
def sub : GFloat → GFloat → GFloat
  | fin a, fin b => fin (a - b)
  | fin _, inf => ninf
  | fin _, ninf => inf
  | inf, fin _ => inf
  | inf, inf => nan
  | inf, ninf => inf
  | ninf, fin _ => ninf
  | ninf, inf => ninf
  | ninf, ninf => nan
  | nan, _ => nan
  | _, nan => nan

/-- Multiplication of a finite rational (an overlap area) by an idealized
float (a multiplier), with the IEEE rules for the special values. -/
def scale (a : ℚ) : GFloat → GFloat
  | fin m => fin (a * m)
  | inf => if 0 < a then inf else if a < 0 then ninf else nan
  | ninf => if 0 < a then ninf else if a < 0 then inf else nan
  | nan => nan

/-- `math.IsInf(x, 1)`: the test for positive infinity. -/
def isPosInf : GFloat → Bool
  | inf => true
  | _ => false

def isNan : GFloat → Bool
  | nan => true
  | _ => false

/-- IEEE strict less-than (false whenever `nan` is involved). -/
def blt : GFloat → GFloat → Bool
  | fin a, fin b => decide (a < b)
  | fin _, inf => true
  | fin _, _ => false
  | ninf, fin _ => true
  | ninf, inf => true
  | ninf, _ => false
  | inf, _ => false
  | nan, _ => false

/-- IEEE greater-or-equal (false whenever `nan` is involved). -/
def bge (x y : GFloat) : Bool := !x.isNan && !y.isNan && !(x.blt y)

end GFloat

/-- Modelled from the spec: the external geometry collaborator `mosaic`
provides "a vector type with component-wise arithmetic". -/
structure Vector where
  x : ℚ
  y : ℚ
deriving DecidableEq, Repr

/-- `mosaic.NewVector`. -/
def NewVector (x y : ℚ) : Vector := ⟨x, y⟩

/-- Modelled from the spec: the external geometry collaborator `mosaic`
provides "a rectangle type exposing minimum/maximum corner points, a
reference position, and an overlap-area function between two rectangles".
The reference position is the rectangle's center (the repository's cell
rectangles are built as `NewRectangle(center, size, size)` with
`center = index*size + size/2`). -/
structure Rectangle where
  Position : Vector
  Width : ℚ
  Height : ℚ
deriving DecidableEq, Repr

/-- `mosaic.NewRectangle`. -/
def NewRectangle (position : Vector) (width height : ℚ) : Rectangle :=
  ⟨position, width, height⟩

/-- Minimum corner point of a rectangle (center minus half extents). -/
def Rectangle.MinPoint (r : Rectangle) : Vector :=
  ⟨r.Position.x - r.Width / 2, r.Position.y - r.Height / 2⟩

/-- Maximum corner point of a rectangle (center plus half extents). -/
def Rectangle.MaxPoint (r : Rectangle) : Vector :=
  ⟨r.Position.x + r.Width / 2, r.Position.y + r.Height / 2⟩

/-- Modelled from the spec: overlap-area of two axis-aligned rectangles
(zero when they do not intersect). -/
def Rectangle.AreaOfOverlap (a b : Rectangle) : ℚ :=
  max 0 (min a.MaxPoint.x b.MaxPoint.x - max a.MinPoint.x b.MinPoint.x) *
    max 0 (min a.MaxPoint.y b.MaxPoint.y - max a.MinPoint.y b.MinPoint.y)

/-- An occupant record held by a cell bucket. -/
structure spatialGridNodeItem (T : Type) where
  value : T
  bounds : Rectangle
  multiplier : GFloat
  weight : GFloat
deriving DecidableEq, Repr

/-- `newSpatialGridNodeItem`. -/
def newSpatialGridNodeItem {T : Type} (value : T) (bounds : Rectangle)
    (weight multiplier : GFloat) : spatialGridNodeItem T :=
  ⟨value, bounds, multiplier, weight⟩

/-- A cell bucket of the grid. -/
structure spatialGridNode (T : Type) where
  x : ℤ
  y : ℤ
  bounds : Rectangle
  weight : GFloat
  Items : List (spatialGridNodeItem T)
deriving DecidableEq, Repr

/-- `newSpatialGridNode`. -/
def newSpatialGridNode {T : Type} (x y : ℤ) (bounds : Rectangle) : spatialGridNode T :=
  ⟨x, y, bounds, .fin 0, []⟩

/-- `spatialGridNode.Values`. -/
def spatialGridNode.Values {T : Type} (sgn : spatialGridNode T) : List T :=
  sgn.Items.map (·.value)

/-- `spatialGridNode.Insert`: computes the contributed weight as overlap
area with the cell's reference rectangle times the multiplier, appends the
occupant record and adds the contribution to the aggregate weight. -/
def spatialGridNode.Insert {T : Type} (sgn : spatialGridNode T) (item : T)
    (bounds : Rectangle) (multiplier : GFloat) : spatialGridNode T :=
  let weight := GFloat.scale (sgn.bounds.AreaOfOverlap bounds) multiplier
  { sgn with
    Items := sgn.Items ++ [newSpatialGridNodeItem item bounds weight multiplier]
    weight := sgn.weight.add weight }

/-- The body of `spatialGridNode.Delete`'s `for` loop: index `i` scans the
occupant list; a match subtracts the stored contribution from the weight
and removes the record by swap-with-last-and-truncate.  The `for` loop's
post-statement `i++` runs after the removal body too, so the element
swapped into position `i` is never re-examined (a duplicate-valued
occupant moved there survives the delete).  `fuel` bounds the iteration
count (`i` advances by one every step, so an initial fuel of
`Items.length` is always sufficient). -/
def delLoop {T : Type} [DecidableEq T] (item : T) :
    ℕ → ℕ → List (spatialGridNodeItem T) → GFloat →
    List (spatialGridNodeItem T) × GFloat
  | 0, _, items, w => (items, w)
  | fuel + 1, i, items, w =>
    if h : i < items.length then
      let it := items.get ⟨i, h⟩
      if it.value = item then
        delLoop item fuel (i + 1)
          ((items.set i (items.getD (items.length - 1) it)).dropLast)
          (w.sub it.weight)
      else
        delLoop item fuel (i + 1) items w
    else (items, w)

/-- `spatialGridNode.Delete`. -/
def spatialGridNode.Delete {T : Type} [DecidableEq T] (sgn : spatialGridNode T)
    (item : T) : spatialGridNode T :=
  let r := delLoop item sgn.Items.length 0 sgn.Items sgn.weight
  { sgn with Items := r.1, weight := r.2 }

/-- The spatial grid.  `itemCount` is a Go `int`, embedded as `ℤ` (it is
decremented without a guard by `Delete`, so it can go negative). -/
structure SpatialGrid (T : Type) where
  Nodes : List (List (spatialGridNode T))
  SizeX : ℕ
  SizeY : ℕ
  ChunkSize : ℚ
  itemCount : ℤ
deriving DecidableEq, Repr

/-- The reference rectangle of cell `(ix, iy)`: a `size × size` square
centered at `(ix*size + size/2, iy*size + size/2)`. -/
def cellRect (size : ℚ) (ix iy : ℤ) : Rectangle :=
  NewRectangle (NewVector ((ix : ℚ) * size + size / 2) ((iy : ℚ) * size + size / 2))
    size size

/-- `NewSpatialGrid`. -/
def NewSpatialGrid (T : Type) (x y : ℕ) (size : ℚ) : SpatialGrid T :=
  { Nodes :=
      (List.range x).map fun (iX : ℕ) =>
        (List.range y).map fun (iY : ℕ) =>
          newSpatialGridNode (iX : ℤ) (iY : ℤ) (cellRect size iX iY)
    SizeX := x
    SizeY := y
    ChunkSize := size
    itemCount := 0 }

/-- `SpatialGrid.Size`: returns the running item counter. -/
def SpatialGrid.Size {T : Type} (sg : SpatialGrid T) : ℤ := sg.itemCount

/-- Go's `float64`-to-`int` conversion truncates toward zero. -/
def qtrunc (q : ℚ) : ℤ := if 0 ≤ q then ⌊q⌋ else ⌈q⌉

/-- `SpatialGrid.Location`: divide each axis by the chunk size, convert to
an integer index (truncation toward zero), and clamp to the grid bounds. -/
def SpatialGrid.Location {T : Type} (sg : SpatialGrid T) (x y : ℚ) : ℤ × ℤ :=
  let xIndex := qtrunc (x / sg.ChunkSize)
  let yIndex := qtrunc (y / sg.ChunkSize)
  let xIndex :=
    if xIndex < 0 then 0
    else if xIndex > (sg.SizeX : ℤ) - 1 then (sg.SizeX : ℤ) - 1
    else xIndex
  let yIndex :=
    if yIndex < 0 then 0
    else if yIndex > (sg.SizeY : ℤ) - 1 then (sg.SizeY : ℤ) - 1
    else yIndex
  (xIndex, yIndex)

/-- Total in-bounds cell read used to embed `sg.Nodes[x][y]` at the call
sites where the Go indices are known to be in range (after `Location`
clamping or an explicit bounds check).  The default is irrelevant there. -/
def nodeAt {T : Type} (sg : SpatialGrid T) (x y : ℤ) : spatialGridNode T :=
  (sg.Nodes.getD x.toNat []).getD y.toNat
    (newSpatialGridNode 0 0 (cellRect sg.ChunkSize 0 0))

/-- In-bounds cell write, embedding `sg.Nodes[x][y] = n`. -/
def setNode {T : Type} (sg : SpatialGrid T) (x y : ℤ) (n : spatialGridNode T) :
    SpatialGrid T :=
  { sg with
    Nodes := sg.Nodes.set x.toNat ((sg.Nodes.getD x.toNat []).set y.toNat n) }

/-- `SpatialGrid.Insert`: places the occupant in the single cell containing
the bounds' reference position and increments the item counter. -/
def SpatialGrid.Insert {T : Type} (sg : SpatialGrid T) (val : T)
    (bounds : Rectangle) (multiplier : GFloat) : SpatialGrid T :=
  let p := sg.Location bounds.Position.x bounds.Position.y
  let sg1 := setNode sg p.1 p.2 ((nodeAt sg p.1 p.2).Insert val bounds multiplier)
  { sg1 with itemCount := sg.itemCount + 1 }

/-- `SpatialGrid.Delete`: delegates to the cell's `Delete` and decrements
the item counter (unconditionally, even when nothing matched). -/
def SpatialGrid.Delete {T : Type} [DecidableEq T] (sg : SpatialGrid T) (val : T)
    (bounds : Rectangle) : SpatialGrid T :=
  let p := sg.Location bounds.Position.x bounds.Position.y
  let sg1 := setNode sg p.1 p.2 ((nodeAt sg p.1 p.2).Delete val)
  { sg1 with itemCount := sg.itemCount - 1 }

/-- `SpatialGrid.Drop`: replaces every cell bucket with a fresh empty one
(recomputing its reference rectangle) and resets the item counter. -/
def SpatialGrid.Drop {T : Type} (sg : SpatialGrid T) : SpatialGrid T :=
  { sg with
    Nodes :=
      (List.range sg.SizeX).map fun (iX : ℕ) =>
        (List.range sg.SizeY).map fun (iY : ℕ) =>
          newSpatialGridNode (iX : ℤ) (iY : ℤ) (cellRect sg.ChunkSize iX iY)
    itemCount := 0 }

/-- `SpatialGrid.GetItemsAtLocation`: the Go code indexes `Nodes[x][y]`
without any bounds check, so the operation is partial (a Go panic is
embedded as `none`). -/
def SpatialGrid.GetItemsAtLocation {T : Type} (sg : SpatialGrid T) (x y : ℤ) :
    Option (List T) :=
  if x < 0 ∨ y < 0 then none
  else sg.Nodes[x.toNat]?.bind fun row => row[y.toNat]?.map fun n => n.Values

/-- `SpatialGrid.GetLocationWeight`: unchecked `Nodes[x][y].weight`. -/
def SpatialGrid.GetLocationWeight {T : Type} (sg : SpatialGrid T) (x y : ℤ) :
    Option GFloat :=
  if x < 0 ∨ y < 0 then none
  else sg.Nodes[x.toNat]?.bind fun row => row[y.toNat]?.map fun n => n.weight

/-- `SpatialGrid.Node`: copies the cell record at integer indices. -/
def SpatialGrid.Node {T : Type} (sg : SpatialGrid T) (x y : ℤ) : spatialGridNode T :=
  nodeAt sg x y

/-- `SpatialGrid.NodeAtPosition`. -/
def SpatialGrid.NodeAtPosition {T : Type} (sg : SpatialGrid T) (x y : ℚ) :
    spatialGridNode T :=
  let p := sg.Location x y
  sg.Node p.1 p.2

/-- The fixed 4-direction neighbor table. -/
def directions : List (ℤ × ℤ) := [(0, 1), (0, -1), (1, 0), (-1, 0)]

/-- `SpatialGrid.Edges`: the in-bounds 4-connected neighbor cells, in
`directions` order; out-of-bounds neighbors are skipped. -/
def SpatialGrid.Edges {T : Type} (sg : SpatialGrid T) (sgn : spatialGridNode T) :
    List (spatialGridNode T) :=
  directions.filterMap fun d =>
    let nextX := sgn.x + d.1
    let nextY := sgn.y + d.2
    if nextX < 0 ∨ nextX ≥ (sg.SizeX : ℤ) ∨ nextY < 0 ∨ nextY ≥ (sg.SizeY : ℤ) then
      none
    else
      some (sg.Node nextX nextY)

/-- Outcome of the bounded flood search. -/
inductive SearchOutcome (E : Type) where
  | ok
  | maxDepth
  | fail (e : E)
deriving DecidableEq, Repr

/-- The state carried through one level of the flood search: the queue
being built for the next level, the visited set, the trace of visitor
calls made so far (cell index and the occupant values passed), and the
visitor's error, if it signalled one. -/
structure SearchState (T E : Type) where
  queue : List (spatialGridNode T)
  visited : List (ℤ × ℤ)
  trace : List ((ℤ × ℤ) × List T)
  err : Option E
deriving DecidableEq, Repr

/-- One level of `SpatialGrid.Search`'s outer loop.  The Go inner loop
dequeues exactly the cells queued at level start while appending new cells
behind them, which is equivalent to folding over the level's batch while
accumulating the next level's queue.  Every dequeued cell that was already
visited is skipped; a newly visited cell is recorded, its occupants are
passed to the visitor (aborting on a visitor error), and all of its
in-bounds neighbors are enqueued. -/
def levelStep {T E : Type} (sg : SpatialGrid T) (f : List T → Option E) :
    List (spatialGridNode T) → SearchState T E → SearchState T E
  | [], st => st
  | n :: rest, st =>
    if (n.x, n.y) ∈ st.visited then levelStep sg f rest st
    else
      let st1 := { st with
        visited := (n.x, n.y) :: st.visited
        trace := st.trace ++ [((n.x, n.y), n.Values)] }
      match f n.Values with
      | some e => { st1 with err := some e }
      | none => levelStep sg f rest { st1 with queue := st1.queue ++ sg.Edges n }

/-- The outer loop of `SpatialGrid.Search`.  `fuel` bounds the recursion;
the loop itself terminates only through the `maxDepth` check or an empty
queue, so a fuel of `(maxDepth + 2).toNat` always suffices and the `0`
case is unreachable there. -/
def searchLoop {T E : Type} (sg : SpatialGrid T) (f : List T → Option E)
    (maxDepth : ℤ) :
    ℕ → List (spatialGridNode T) → List (ℤ × ℤ) → List ((ℤ × ℤ) × List T) → ℤ →
    List ((ℤ × ℤ) × List T) × SearchOutcome E
  | fuel, queue, visited, trace, currentDepth =>
    if queue.isEmpty then (trace, .ok)
    else if currentDepth > maxDepth then (trace, .maxDepth)
    else
      match fuel with
      | 0 => (trace, .maxDepth)
      | fuel + 1 =>
        let st := levelStep sg f queue ⟨[], visited, trace, none⟩
        match st.err with
        | some e => (st.trace, .fail e)
        | none => searchLoop sg f maxDepth fuel st.queue st.visited st.trace
            (currentDepth + 1)

/-- `SpatialGrid.Search`: bounded breadth-first flood search from the cell
containing `(x, y)`.  Returns the trace of visitor calls together with the
outcome (the Go function returns only the error; the trace makes the
visitor interaction observable). -/
def SpatialGrid.Search {T E : Type} (sg : SpatialGrid T) (x y : ℚ) (maxDepth : ℤ)
    (f : List T → Option E) : List ((ℤ × ℤ) × List T) × SearchOutcome E :=
  searchLoop sg f maxDepth (maxDepth + 2).toNat [sg.NodeAtPosition x y] [] [] 0

/-- First-match association-list lookup, embedding a Go map read. -/
def alookup {β : Type} (l : List ((ℤ × ℤ) × β)) (k : ℤ × ℤ) : Option β :=
  (l.find? fun p => decide (p.1 = k)).map (·.2)

/-- Modelled from the spec: the external `caravan` priority queue orders
entries by priority, "lowest first; ties are broken by insertion/internal
queue order (FIFO-stable for equal priority)".  `pqPop` removes the
earliest entry of minimal priority from the insertion-ordered list. -/
def pqPop {α : Type} : List (α × GFloat) → Option ((α × GFloat) × List (α × GFloat))
  | [] => none
  | (a, p) :: rest =>
    match pqPop rest with
    | none => some ((a, p), [])
    | some ((b, q), rest1) =>
      if GFloat.blt q p then some ((b, q), (a, p) :: rest1)
      else some ((a, p), rest)

/-- The Manhattan-distance heuristic of `WeightedSearch` (exact: the cell
coordinates are integers). -/
def heuristic {T : Type} (a b : spatialGridNode T) : GFloat :=
  .fin (|(a.x : ℚ) - (b.x : ℚ)| + |(a.y : ℚ) - (b.y : ℚ)|)

/-- Why the weighted search loop stopped. -/
inductive WSExit where
  | reachedEnd
  | exhausted
  | depthError
deriving DecidableEq, Repr

/-- The mutable state of `WeightedSearch`: the priority queue, the `costs`
map and the `cameFrom` predecessor map (association lists with prepend
shadowing, lookup-equivalent to Go maps). -/
structure WSState (T : Type) where
  pq : List (spatialGridNode T × GFloat)
  costs : List ((ℤ × ℤ) × GFloat)
  cameFrom : List ((ℤ × ℤ) × spatialGridNode T)
deriving DecidableEq, Repr

/-- The relaxation loop over the edges of the dequeued cell.  An edge is
pruned when the accumulated cost is positive infinity; otherwise it is
relaxed only when the new cost is strictly below any recorded cost (a
missing `costs` entry for the current cell reads as `0`, as in Go). -/
def relaxEdges {T : Type} (endNode current : spatialGridNode T) :
    List (spatialGridNode T) → WSState T → WSState T
  | [], st => st
  | e :: rest, st =>
    let newCost := ((alookup st.costs (current.x, current.y)).getD (.fin 0)).add
      e.weight
    if newCost.isPosInf then relaxEdges endNode current rest st
    else
      match alookup st.costs (e.x, e.y) with
      | some edgeCost =>
        if newCost.bge edgeCost then relaxEdges endNode current rest st
        else
          relaxEdges endNode current rest
            { pq := st.pq ++ [(e, newCost.add (heuristic e endNode))]
              costs := ((e.x, e.y), newCost) :: st.costs
              cameFrom := ((e.x, e.y), current) :: st.cameFrom }
      | none =>
        relaxEdges endNode current rest
          { pq := st.pq ++ [(e, newCost.add (heuristic e endNode))]
            costs := ((e.x, e.y), newCost) :: st.costs
            cameFrom := ((e.x, e.y), current) :: st.cameFrom }

/-- The main loop of `WeightedSearch`.  Stops on an empty queue, on the
depth check, or by dequeuing the end cell.  As in `searchLoop`, `fuel`
only bounds the recursion and the `0` case is unreachable for a fuel of
`(maxDepth + 2).toNat`. -/
def wsLoop {T : Type} (sg : SpatialGrid T) (endNode : spatialGridNode T)
    (maxDepth : ℤ) : ℕ → WSState T → ℤ → WSState T × WSExit
  | fuel, st, currentDepth =>
    if st.pq.isEmpty then (st, .exhausted)
    else if currentDepth > maxDepth then (st, .depthError)
    else
      match fuel with
      | 0 => (st, .depthError)
      | fuel + 1 =>
        match pqPop st.pq with
        | none => (st, .exhausted)
        | some ((currentNode, _), rest) =>
          if currentNode.x = endNode.x ∧ currentNode.y = endNode.y then
            ({ st with pq := rest }, .reachedEnd)
          else
            let st1 := relaxEdges endNode currentNode (sg.Edges currentNode)
              { st with pq := rest }
            wsLoop sg endNode maxDepth fuel st1 (currentDepth + 1)

/-- The path-reconstruction walk: follow predecessor links backward from
the end cell until the start cell, collecting the nodes passed.  A missing
`cameFrom` entry reads as the zero-valued node, as a Go map does; the fuel
bounds the walk (the Go loop would spin forever on a malformed chain, a
state the verified runs never reach). -/
def walkBack {T : Type} (startIx : ℤ × ℤ)
    (cameFrom : List ((ℤ × ℤ) × spatialGridNode T)) :
    ℕ → spatialGridNode T → List (spatialGridNode T) → List (spatialGridNode T)
  | 0, _, acc => acc
  | fuel + 1, current, acc =>
    if (current.x, current.y) = startIx then acc
    else
      walkBack startIx cameFrom fuel
        ((alookup cameFrom (current.x, current.y)).getD
          (newSpatialGridNode 0 0 (NewRectangle (NewVector 0 0) 0 0)))
        (acc ++ [current])

/-- Errors of `WeightedSearch`. -/
inductive WSErr where
  | maxDepthReached
  | pathNotFound
deriving DecidableEq, Repr

instance {α β : Type} [DecidableEq α] [DecidableEq β] : DecidableEq (Except α β) :=
  fun a b =>
    match a, b with
    | .ok x, .ok y => decidable_of_iff (x = y) (by simp)
    | .error x, .error y => decidable_of_iff (x = y) (by simp)
    | .ok _, .error _ => .isFalse (by simp)
    | .error _, .ok _ => .isFalse (by simp)

/-- The complete main-loop run of `WeightedSearch`: initial state
(the start cell seeded into the queue and both maps) followed by the loop,
returning the final state and the exit reason. -/
def wsRun {T : Type} (sg : SpatialGrid T) (start finish : Vector) (maxDepth : ℤ) :
    WSState T × WSExit :=
  let startNode := sg.NodeAtPosition start.x start.y
  let endNode := sg.NodeAtPosition finish.x finish.y
  let st0 : WSState T :=
    { pq := [(startNode, .fin 0)]
      costs := [((startNode.x, startNode.y), .fin 0)]
      cameFrom := [((startNode.x, startNode.y), startNode)] }
  wsLoop sg endNode maxDepth (maxDepth + 2).toNat st0 0

/-- `SpatialGrid.WeightedSearch`: A* over the cell adjacency graph.  On
success the returned waypoints are the continuous center points of the
path's cells. -/
def SpatialGrid.WeightedSearch {T : Type} (sg : SpatialGrid T)
    (start finish : Vector) (maxDepth : ℤ) : Except WSErr (List Vector) :=
  let startNode := sg.NodeAtPosition start.x start.y
  let endNode := sg.NodeAtPosition finish.x finish.y
  let r := wsRun sg start finish maxDepth
  match r.2 with
  | .depthError => .error .maxDepthReached
  | _ =>
    match alookup r.1.cameFrom (endNode.x, endNode.y) with
    | none => .error .pathNotFound
    | some _ =>
      let pathNodes :=
        walkBack (startNode.x, startNode.y) r.1.cameFrom
          (r.1.cameFrom.length + 1) endNode [] ++ [startNode]
      .ok (pathNodes.reverse.map fun n =>
        NewVector ((n.x : ℚ) * sg.ChunkSize + sg.ChunkSize / 2)
          ((n.y : ℚ) * sg.ChunkSize + sg.ChunkSize / 2))

/-- Dimensional and coordinate well-formedness of a grid: the cell array
has the advertised dimensions and every cell stores its own grid
coordinates.  This holds for constructed grids and is preserved by every
mutation. -/
def WF {T : Type} (g : SpatialGrid T) : Prop :=
  g.Nodes.length = g.SizeX ∧
  ∀ i < g.SizeX, (g.Nodes.getD i []).length = g.SizeY ∧
    ∀ j < g.SizeY, (nodeAt g i j).x = i ∧ (nodeAt g i j).y = j

instance {T : Type} (g : SpatialGrid T) : Decidable (WF g) := by
  unfold WF; infer_instance

/-- A weight the spec's multiplier contract (`real ≥ 0 or +infinity`) can
produce on a cell: positive infinity or a finite non-negative value. -/
def GFloat.isGoodWeight : GFloat → Bool
  | .inf => true
  | .fin q => decide (0 ≤ q)
  | _ => false

/-- All cell weights of the grid arise from the spec's multiplier
contract. -/
def GoodWeights {T : Type} (g : SpatialGrid T) : Prop :=
  ∀ i < g.SizeX, ∀ j < g.SizeY, ((nodeAt g i j).weight).isGoodWeight = true

instance {T : Type} (g : SpatialGrid T) : Decidable (GoodWeights g) := by
  unfold GoodWeights; infer_instance

/-- Cell index in bounds. -/
def inBnd {T : Type} (g : SpatialGrid T) (p : ℤ × ℤ) : Prop :=
  0 ≤ p.1 ∧ p.1 < (g.SizeX : ℤ) ∧ 0 ≤ p.2 ∧ p.2 < (g.SizeY : ℤ)

instance {T : Type} (g : SpatialGrid T) (p : ℤ × ℤ) : Decidable (inBnd g p) := by
  unfold inBnd; infer_instance

/-- One step of the finite-weight adjacency relation: a 4-neighbor move
into an in-bounds cell whose aggregate weight is not positive infinity
(the cost of an edge is the weight of its destination cell). -/
def finStep {T : Type} (g : SpatialGrid T) (a b : ℤ × ℤ) : Prop :=
  ∃ d ∈ directions, b = (a.1 + d.1, a.2 + d.2) ∧ inBnd g b ∧
    (nodeAt g b.1 b.2).weight ≠ .inf

/-- A cell is finite-weight-reachable from another when some chain of
`finStep` moves connects them (so the claim's "every route from the start
cell passes through an infinite-weight cell" is `¬ FinReach`). -/
def FinReach {T : Type} (g : SpatialGrid T) : (ℤ × ℤ) → (ℤ × ℤ) → Prop :=
  Relation.ReflTransGen (finStep g)

/-- The coordinate mapping exactly as the spec words it: divide each axis
by the chunk size, take the floor ("truncate toward the nearest lower
integer"), then clamp independently to `[0, sizeX-1]` and `[0, sizeY-1]`. -/
def locationSpec {T : Type} (sg : SpatialGrid T) (x y : ℚ) : ℤ × ℤ :=
  (max 0 (min ((sg.SizeX : ℤ) - 1) ⌊x / sg.ChunkSize⌋),
    max 0 (min ((sg.SizeY : ℤ) - 1) ⌊y / sg.ChunkSize⌋))

/-- A mutation of the grid, for stating properties of operation
sequences.  The multiplier of an insertion is a finite rational here (the
amended weight-accounting invariant is about finite multipliers). -/
inductive GridOp (T : Type) where
  | ins (val : T) (bounds : Rectangle) (m : ℚ)
  | del (val : T) (bounds : Rectangle)

/-- Run one `GridOp`. -/
def applyOp {T : Type} [DecidableEq T] (g : SpatialGrid T) : GridOp T → SpatialGrid T
  | .ins val bounds m => g.Insert val bounds (.fin m)
  | .del val bounds => g.Delete val bounds

/-- Run a sequence of `GridOp`s left to right. -/
def applyOps {T : Type} [DecidableEq T] (g : SpatialGrid T) (ops : List (GridOp T)) :
    SpatialGrid T :=
  ops.foldl applyOp g

/-- Sum of idealized floats, as the repeated IEEE addition used by the
weight accumulator. -/
def gfSum : List GFloat → GFloat :=
  fun l => l.foldr .add (.fin 0)

/-- The finite value of an idealized float (`0` on the special values;
only ever applied where all values are known finite). -/
def qOf : GFloat → ℚ
  | .fin q => q
  | _ => 0

/-- Rational sum of the stored contributions of a list of occupants. -/
def qsum {T : Type} (items : List (spatialGridNodeItem T)) : ℚ :=
  (items.map fun it => qOf it.weight).sum

/-- Every stored contribution in the list is finite. -/
def AllFin {T : Type} (items : List (spatialGridNodeItem T)) : Prop :=
  ∀ it ∈ items, ∃ q, it.weight = GFloat.fin q

/-- The bucket-level accounting invariant (in its finite form): all stored
contributions are finite and the aggregate weight is their exact sum. -/
def NodeInv {T : Type} (n : spatialGridNode T) : Prop :=
  AllFin n.Items ∧ n.weight = .fin (qsum n.Items)

/-- Grid-level invariant: well-formed and every cell satisfies the
bucket-level accounting invariant. -/
def GridInv {T : Type} (g : SpatialGrid T) : Prop :=
  WF g ∧ ∀ i j : ℕ, i < g.SizeX → j < g.SizeY → NodeInv (nodeAt g (i : ℤ) (j : ℤ))

/-! ## Generic access lemmas -/

theorem getD_range_map {α : Type _} (f : ℕ → α) (d : α) (n i : ℕ) (h : i < n) :
    ((List.range n).map f).getD i d = f i := by
  simp [List.getD_eq_getElem?_getD, List.getElem?_map, List.getElem?_range h]

theorem nodeAt_new (T : Type) (x y : ℕ) (c : ℚ) {i j : ℕ} (hi : i < x) (hj : j < y) :
    nodeAt (NewSpatialGrid T x y c) (i : ℤ) (j : ℤ) =
      newSpatialGridNode (i : ℤ) (j : ℤ) (cellRect c i j) := by
  simp only [nodeAt, NewSpatialGrid, Int.toNat_natCast]
  rw [getD_range_map _ _ _ _ hi, getD_range_map _ _ _ _ hj]

theorem nodeAt_drop {T : Type} (g : SpatialGrid T) {i j : ℕ}
    (hi : i < g.SizeX) (hj : j < g.SizeY) :
    nodeAt g.Drop (i : ℤ) (j : ℤ) =
      newSpatialGridNode (i : ℤ) (j : ℤ) (cellRect g.ChunkSize i j) := by
  simp only [nodeAt, SpatialGrid.Drop, Int.toNat_natCast]
  rw [getD_range_map _ _ _ _ hi, getD_range_map _ _ _ _ hj]

theorem location_inBnd {T : Type} (g : SpatialGrid T)
    (hx : 1 ≤ g.SizeX) (hy : 1 ≤ g.SizeY) (x y : ℚ) : inBnd g (g.Location x y) := by
  have hx1 : (1 : ℤ) ≤ (g.SizeX : ℤ) := by exact_mod_cast hx
  have hy1 : (1 : ℤ) ≤ (g.SizeY : ℤ) := by exact_mod_cast hy
  simp only [SpatialGrid.Location, inBnd]
  constructor
  · split_ifs <;> omega
  refine ⟨?_, ?_, ?_⟩ <;> split_ifs <;> omega

theorem getD_set {α : Type _} (l : List α) (i j : ℕ) (x d : α) :
    (l.set i x).getD j d = if j = i ∧ i < l.length then x else l.getD j d := by
  by_cases h1 : j = i
  · subst h1
    by_cases h2 : j < l.length
    · rw [if_pos ⟨rfl, h2⟩, List.getD_eq_getElem _ _ (by simpa using h2)]
      exact List.getElem_set_self _
    · rw [if_neg (by tauto), List.set_eq_of_length_le (le_of_not_lt h2)]
  · rw [if_neg (by tauto), List.getD_eq_getElem?_getD,
      List.getElem?_set_ne (Ne.symm h1), ← List.getD_eq_getElem?_getD]

theorem nodeAt_setNode {T : Type} (g : SpatialGrid T) (a b i j : ℤ)
    (n : spatialGridNode T) :
    nodeAt (setNode g a b n) i j =
      if i.toNat = a.toNat ∧ j.toNat = b.toNat ∧ a.toNat < g.Nodes.length ∧
          b.toNat < (g.Nodes.getD a.toNat []).length
      then n else nodeAt g i j := by
  simp only [nodeAt, setNode]
  rw [getD_set]
  by_cases h1 : i.toNat = a.toNat ∧ a.toNat < g.Nodes.length
  · rw [if_pos h1, getD_set]
    by_cases h2 : j.toNat = b.toNat ∧ b.toNat < (g.Nodes.getD a.toNat []).length
    · rw [if_pos h2, if_pos ⟨h1.1, h2.1, h1.2, h2.2⟩]
    · rw [if_neg h2, if_neg (by tauto), h1.1]
  · rw [if_neg h1, if_neg (by tauto)]

theorem nodeAt_toNat_congr {T : Type} (g : SpatialGrid T) {a b c d : ℤ}
    (h1 : a.toNat = c.toNat) (h2 : b.toNat = d.toNat) :
    nodeAt g a b = nodeAt g c d := by
  simp only [nodeAt, h1, h2]

theorem WF_setNode {T : Type} {g : SpatialGrid T} (hwf : WF g) (a b : ℤ)
    (n : spatialGridNode T) (hx : n.x = (nodeAt g a b).x)
    (hy : n.y = (nodeAt g a b).y) : WF (setNode g a b n) := by
  obtain ⟨hlen, hrows⟩ := hwf
  refine ⟨by simpa [setNode] using hlen, ?_⟩
  intro i hi
  constructor
  · show ((setNode g a b n).Nodes.getD i []).length = _
    simp only [setNode]
    rw [getD_set]
    split_ifs with h
    · rw [List.length_set]
      exact (hrows a.toNat (hlen ▸ h.2)).1
    · exact (hrows i hi).1
  · intro j hj
    rw [nodeAt_setNode]
    split_ifs with h
    · have hcast : ((i : ℤ)).toNat = i := Int.toNat_natCast i
      have hcast2 : ((j : ℤ)).toNat = j := Int.toNat_natCast j
      have heqa : nodeAt g a b = nodeAt g (i : ℤ) (j : ℤ) :=
        nodeAt_toNat_congr g (by omega) (by omega)
      have hc := (hrows i hi).2 j hj
      constructor
      · rw [hx, heqa, hc.1]
      · rw [hy, heqa, hc.2]
    · exact (hrows i hi).2 j hj

/-! ## GFloat and sum lemmas -/

theorem GFloat.add_fin_sub_fin_cancel (w : GFloat) (a : ℚ) :
    (w.add (.fin a)).sub (.fin a) = w := by
  cases w <;> simp [GFloat.add, GFloat.sub]

theorem gfSum_allFin {T : Type} (items : List (spatialGridNodeItem T))
    (h : AllFin items) : gfSum (items.map (·.weight)) = .fin (qsum items) := by
  induction items with
  | nil => rfl
  | cons it tl ih =>
    obtain ⟨q, hq⟩ := h it (by simp)
    have htl := ih fun e he => h e (by simp [he])
    simp only [List.map_cons, gfSum, List.foldr_cons] at htl ⊢
    rw [hq, htl]
    show GFloat.fin (q + qsum tl) = GFloat.fin (qsum (it :: tl))
    congr 1
    simp [qsum, hq, qOf]

theorem qsum_append {T : Type} (l1 l2 : List (spatialGridNodeItem T)) :
    qsum (l1 ++ l2) = qsum l1 + qsum l2 := by
  simp [qsum]

theorem qsum_set {T : Type} (l : List (spatialGridNodeItem T)) (i : ℕ)
    (x : spatialGridNodeItem T) (h : i < l.length) :
    qsum (l.set i x) = qsum l - qOf (l.get ⟨i, h⟩).weight + qOf x.weight := by
  induction l generalizing i with
  | nil => simp at h
  | cons a tl ih =>
    cases i with
    | zero =>
      show qsum (x :: tl) = _
      simp only [qsum, List.map_cons, List.sum_cons, List.get]
      ring
    | succ i =>
      have hi : i < tl.length := by simpa using h
      have hrec := ih i hi
      show qsum (a :: tl.set i x) = _
      simp only [qsum, List.map_cons, List.sum_cons] at hrec ⊢
      rw [hrec]
      simp only [List.get]
      ring

theorem qsum_dropLast {T : Type} (l : List (spatialGridNodeItem T)) (h : l ≠ []) :
    qsum l.dropLast = qsum l - qOf (l.getLast h).weight := by
  have h2 := congrArg qsum (List.dropLast_append_getLast h)
  rw [qsum_append] at h2
  have h3 : qsum [l.getLast h] = qOf (l.getLast h).weight := by simp [qsum]
  rw [h3] at h2
  linarith

theorem qsum_swapRemove {T : Type} (l : List (spatialGridNodeItem T)) (i : ℕ)
    (h : i < l.length) (d : spatialGridNodeItem T) :
    qsum ((l.set i (l.getD (l.length - 1) d)).dropLast) =
      qsum l - qOf (l.get ⟨i, h⟩).weight := by
  have hne : l ≠ [] := by
    intro hl; rw [hl] at h; simp at h
  have hlast : l.getD (l.length - 1) d = l.get ⟨l.length - 1, by omega⟩ :=
    List.getD_eq_getElem l d (by omega)
  have hlen : (l.set i (l.getD (l.length - 1) d)).length = l.length := by simp
  have hne2 : l.set i (l.getD (l.length - 1) d) ≠ [] := by
    intro hl
    rw [hl] at hlen
    simp at hlen
    omega
  rw [qsum_dropLast _ hne2]
  have hlast2 : (l.set i (l.getD (l.length - 1) d)).getLast hne2 =
      l.getD (l.length - 1) d := by
    rw [List.getLast_eq_getElem _ hne2]
    simp only [List.length_set]
    by_cases hi : i = l.length - 1
    · subst hi
      exact List.getElem_set_self _
    · rw [List.getElem_set_ne (show i ≠ l.length - 1 from hi)]
      exact (List.getD_eq_getElem l d (by omega)).symm
  rw [hlast2, qsum_set l i _ h, hlast]
  ring

theorem allFin_swapRemove {T : Type} {l : List (spatialGridNodeItem T)}
    (h : AllFin l) (i : ℕ) (d : spatialGridNodeItem T) (hd : d ∈ l) :
    AllFin ((l.set i (l.getD (l.length - 1) d)).dropLast) := by
  intro it hit
  have h1 : it ∈ l.set i (l.getD (l.length - 1) d) := List.dropLast_subset _ hit
  rcases List.mem_or_eq_of_mem_set h1 with h2 | h2
  · exact h it h2
  · subst h2
    by_cases hl : l.length - 1 < l.length
    · rw [List.getD_eq_getElem l d hl]
      exact h _ (List.getElem_mem hl)
    · rw [List.getD_eq_getElem?_getD, List.getElem?_eq_none (by omega)]
      exact h d hd

/-! ## Delete-loop lemmas -/

theorem set_concat {α : Type _} (l : List α) (a b : α) :
    (l ++ [a]).set l.length b = l ++ [b] := by
  induction l with
  | nil => rfl
  | cons x tl ih => simp [List.set, ih]

theorem delLoop_out {T : Type} [DecidableEq T] (v : T) (fuel i : ℕ)
    (items : List (spatialGridNodeItem T)) (w : GFloat)
    (h : items.length ≤ i) : delLoop v fuel i items w = (items, w) := by
  cases fuel with
  | zero => rfl
  | succ fuel => rw [delLoop, dif_neg (by omega)]

theorem delLoop_skip {T : Type} [DecidableEq T] (v : T) :
    ∀ (fuel i : ℕ) (items : List (spatialGridNodeItem T)) (w : GFloat),
      (∀ it ∈ items.drop i, it.value ≠ v) → delLoop v fuel i items w = (items, w) := by
  intro fuel
  induction fuel with
  | zero => intro i items w _; rfl
  | succ fuel ih =>
    intro i items w hno
    by_cases h : i < items.length
    · have hdrop := List.drop_eq_getElem_cons h
      have hmem : items.get ⟨i, h⟩ ∈ items.drop i := by
        rw [hdrop]; exact List.mem_cons_self _ _
      rw [delLoop, dif_pos h, if_neg (hno _ hmem)]
      exact ih (i + 1) items w fun it hit => hno it (by rw [hdrop]; exact List.mem_cons_of_mem _ hit)
    · rw [delLoop, dif_neg h]

theorem delLoop_concat_match {T : Type} [DecidableEq T] (v : T)
    (x : spatialGridNodeItem T) (hx : x.value = v) :
    ∀ (fuel i : ℕ) (pre : List (spatialGridNodeItem T)) (w : GFloat),
      (∀ it ∈ pre.drop i, it.value ≠ v) → i ≤ pre.length →
      pre.length + 1 - i ≤ fuel →
      delLoop v fuel i (pre ++ [x]) w = (pre, w.sub x.weight) := by
  intro fuel
  induction fuel with
  | zero => intro i pre w _ h1 h2; omega
  | succ fuel ih =>
    intro i pre w hno hile hfuel
    have hlen : (pre ++ [x]).length = pre.length + 1 := by simp
    have hilt : i < (pre ++ [x]).length := by omega
    rw [delLoop, dif_pos hilt]
    by_cases hi : i < pre.length
    · have hget : (pre ++ [x]).get ⟨i, hilt⟩ = pre.get ⟨i, hi⟩ :=
        List.getElem_append_left hi
      have hmem : pre.get ⟨i, hi⟩ ∈ pre.drop i := by
        rw [List.drop_eq_getElem_cons hi]; exact List.mem_cons_self _ _
      rw [hget, if_neg (hno _ hmem)]
      exact ih (i + 1) pre w
        (fun it hit => hno it (by
          rw [List.drop_eq_getElem_cons hi]; exact List.mem_cons_of_mem _ hit))
        (by omega) (by omega)
    · have hieq : i = pre.length := by omega
      subst hieq
      have hget : (pre ++ [x]).get ⟨pre.length, hilt⟩ = x :=
        List.getElem_concat_length _ _ _ rfl (by simp)
      rw [hget, if_pos hx]
      have hgetD : (pre ++ [x]).getD ((pre ++ [x]).length - 1) x = x := by
        rw [hlen]
        simp only [Nat.add_sub_cancel]
        rw [List.getD_eq_getElem _ _ (by omega)]
        exact List.getElem_concat_length _ _ _ rfl (by simp)
      rw [hgetD]
      rw [set_concat, List.dropLast_concat]
      exact delLoop_out v fuel (pre.length + 1) pre _ (by omega)

theorem delLoop_qsum {T : Type} [DecidableEq T] (v : T) :
    ∀ (fuel i : ℕ) (items : List (spatialGridNodeItem T)) (c : ℚ),
      AllFin items →
      (delLoop v fuel i items (.fin (qsum items + c))).2 =
          .fin (qsum (delLoop v fuel i items (.fin (qsum items + c))).1 + c) ∧
      AllFin (delLoop v fuel i items (.fin (qsum items + c))).1 := by
  intro fuel
  induction fuel with
  | zero => intro i items c hfin; exact ⟨rfl, hfin⟩
  | succ fuel ih =>
    intro i items c hfin
    by_cases h : i < items.length
    · rw [delLoop, dif_pos h]
      by_cases hv : (items.get ⟨i, h⟩).value = v
      · rw [if_pos hv]
        obtain ⟨q, hq⟩ := hfin _ (List.getElem_mem h)
        have hq2 : (items.get ⟨i, h⟩).weight = GFloat.fin q := hq
        have hsub : (GFloat.fin (qsum items + c)).sub (items.get ⟨i, h⟩).weight =
            .fin (qsum ((items.set i (items.getD (items.length - 1)
              (items.get ⟨i, h⟩))).dropLast) + c) := by
          rw [hq2]
          show GFloat.fin (qsum items + c - q) = _
          congr 1
          rw [qsum_swapRemove items i h, hq2]
          simp only [qOf]
          ring
        rw [hsub]
        exact ih (i + 1) _ c (allFin_swapRemove hfin i _ (List.getElem_mem h))
      · rw [if_neg hv]
        exact ih (i + 1) items c hfin
    · rw [delLoop, dif_neg h]
      exact ⟨rfl, hfin⟩

/-! ## Node-level invariant preservation -/

theorem NodeInv_insert {T : Type} {n : spatialGridNode T} (h : NodeInv n)
    (v : T) (b : Rectangle) (m : ℚ) : NodeInv (n.Insert v b (.fin m)) := by
  obtain ⟨hfin, hw⟩ := h
  constructor
  · intro it hit
    rcases List.mem_append.mp hit with hmem | hmem
    · exact hfin it hmem
    · rw [List.mem_singleton] at hmem
      subst hmem
      exact ⟨_, rfl⟩
  · show (n.weight.add (GFloat.scale (n.bounds.AreaOfOverlap b) (.fin m))) =
      .fin (qsum (n.Insert v b (.fin m)).Items)
    rw [hw]
    show GFloat.fin (qsum n.Items + n.bounds.AreaOfOverlap b * m) = _
    congr 1
    show _ = qsum (n.Items ++
      [newSpatialGridNodeItem v b
        (GFloat.scale (n.bounds.AreaOfOverlap b) (.fin m)) (.fin m)])
    rw [qsum_append]
    simp [qsum, newSpatialGridNodeItem, GFloat.scale, qOf]

theorem NodeInv_delete {T : Type} [DecidableEq T] {n : spatialGridNode T}
    (h : NodeInv n) (v : T) : NodeInv (n.Delete v) := by
  obtain ⟨hfin, hw⟩ := h
  have hq := delLoop_qsum v n.Items.length 0 n.Items 0 hfin
  simp only [add_zero] at hq
  rw [← hw] at hq
  constructor
  · exact hq.2
  · show (delLoop v n.Items.length 0 n.Items n.weight).2 =
      GFloat.fin (qsum (n.Delete v).Items)
    rw [hq.1]
    rfl

/-! ## Grid-level invariant preservation -/

theorem GridInv_new (T : Type) (x y : ℕ) (c : ℚ) : GridInv (NewSpatialGrid T x y c) := by
  constructor
  · refine ⟨by simp [NewSpatialGrid], ?_⟩
    intro i hi
    have hi2 : i < x := hi
    have hrow : (NewSpatialGrid T x y c).Nodes.getD i [] =
        (List.range y).map fun (iY : ℕ) =>
          newSpatialGridNode (i : ℤ) (iY : ℤ) (cellRect c i iY) := by
      show ((List.range x).map _).getD i [] = _
      rw [getD_range_map _ _ _ _ hi2]
    constructor
    · rw [hrow]; simp [NewSpatialGrid]
    · intro j hj
      rw [nodeAt_new T x y c hi hj]
      exact ⟨rfl, rfl⟩
  · intro i j hi hj
    rw [nodeAt_new T x y c hi hj]
    exact ⟨fun it hit => by simp [newSpatialGridNode] at hit, rfl⟩

theorem nodeAt_itemCount {T : Type} (g : SpatialGrid T) (z : ℤ) (i j : ℤ) :
    nodeAt { g with itemCount := z } i j = nodeAt g i j := rfl

theorem GridInv_applyOp {T : Type} [DecidableEq T] {g : SpatialGrid T}
    (h : GridInv g) (op : GridOp T) : GridInv (applyOp g op) := by
  obtain ⟨hwf, hinv⟩ := h
  have main : ∀ (nf : spatialGridNode T → spatialGridNode T),
      (∀ n, (nf n).x = n.x) → (∀ n, (nf n).y = n.y) →
      (∀ n, NodeInv n → NodeInv (nf n)) →
      ∀ (p : ℤ × ℤ) (z : ℤ),
      GridInv { setNode g p.1 p.2 (nf (nodeAt g p.1 p.2)) with itemCount := z } := by
    intro nf hnfx hnfy hnfInv p z
    constructor
    · exact WF_setNode hwf p.1 p.2 _ (hnfx _) (hnfy _)
    · intro i j hi hj
      rw [nodeAt_itemCount, nodeAt_setNode]
      split_ifs with hcond
      · have hp1 : (p.1.toNat : ℤ).toNat = p.1.toNat := Int.toNat_natCast _
        have heq : nodeAt g p.1 p.2 = nodeAt g (i : ℤ) (j : ℤ) :=
          nodeAt_toNat_congr g (by omega) (by omega)
        rw [heq]
        exact hnfInv _ (hinv i j hi hj)
      · exact hinv i j hi hj
  cases op with
  | ins val bounds m =>
    exact main (fun n => n.Insert val bounds (.fin m)) (fun n => rfl) (fun n => rfl)
      (fun n hn => NodeInv_insert hn val bounds m) _ _
  | del val bounds =>
    exact main (fun n => n.Delete val) (fun n => rfl) (fun n => rfl)
      (fun n hn => NodeInv_delete hn val) _ _

theorem GridInv_applyOps {T : Type} [DecidableEq T] {g : SpatialGrid T}
    (h : GridInv g) (ops : List (GridOp T)) : GridInv (applyOps g ops) := by
  induction ops generalizing g with
  | nil => exact h
  | cons op tl ih => exact ih (GridInv_applyOp h op)

/-! ## C7: the coordinate mapping -/

theorem trunc_clamp_eq_floor_clamp (q : ℚ) (s : ℤ) (hs : 1 ≤ s) :
    (if qtrunc q < 0 then 0 else if qtrunc q > s - 1 then s - 1 else qtrunc q)
      = max 0 (min (s - 1) ⌊q⌋) := by
  rcases le_or_lt 0 q with h | h
  · rw [qtrunc, if_pos h]
    have h0 : 0 ≤ ⌊q⌋ := Int.floor_nonneg.mpr h
    split_ifs <;> omega
  · have h1 : ⌊q⌋ < 0 := Int.floor_lt.mpr (by exact_mod_cast h)
    have h2 : qtrunc q ≤ 0 := by
      rw [qtrunc, if_neg (not_le.mpr h)]
      exact Int.ceil_le.mpr (by exact_mod_cast h.le)
    split_ifs <;> omega

/-- C7: for every continuous input the coordinate mapping equals
floor-division by the chunk size followed by independent clamping to the
grid bounds (the code truncates toward zero, but truncation and floor can
only differ on negative quotients, which clamp to the zero border cell
either way), no input is rejected (the mapping is total), and on a 4×4
grid with chunk size 8 position `(4,4)` maps to cell `(0,0)` and position
`(28,28)` maps to cell `(3,3)`. -/
theorem C7_location_floor_clamp {T : Type} (g : SpatialGrid T)
    (hx : 1 ≤ g.SizeX) (hy : 1 ≤ g.SizeY) (x y : ℚ) :
    g.Location x y = locationSpec g x y ∧
    (NewSpatialGrid ℤ 4 4 8).Location 4 4 = (0, 0) ∧
    (NewSpatialGrid ℤ 4 4 8).Location 28 28 = (3, 3) := by
  refine ⟨?_, by with_unfolding_all decide, by with_unfolding_all decide⟩
  have hx1 : (1 : ℤ) ≤ (g.SizeX : ℤ) := by exact_mod_cast hx
  have hy1 : (1 : ℤ) ≤ (g.SizeY : ℤ) := by exact_mod_cast hy
  simp only [SpatialGrid.Location, locationSpec]
  rw [Prod.mk.injEq]
  exact ⟨trunc_clamp_eq_floor_clamp _ _ hx1, trunc_clamp_eq_floor_clamp _ _ hy1⟩

theorem C7_location_floor_clamp_witness :
    (NewSpatialGrid ℤ 4 4 8).Location 4 4 = locationSpec (NewSpatialGrid ℤ 4 4 8) 4 4 :=
  (C7_location_floor_clamp (NewSpatialGrid ℤ 4 4 8) (by decide) (by decide) 4 4).1

theorem applyOps_sizes {T : Type} [DecidableEq T] (g : SpatialGrid T)
    (ops : List (GridOp T)) :
    (applyOps g ops).SizeX = g.SizeX ∧ (applyOps g ops).SizeY = g.SizeY := by
  induction ops generalizing g with
  | nil => exact ⟨rfl, rfl⟩
  | cons op tl ih =>
    have hstep : (applyOp g op).SizeX = g.SizeX ∧ (applyOp g op).SizeY = g.SizeY := by
      cases op <;> exact ⟨rfl, rfl⟩
    have := ih (applyOp g op)
    exact ⟨by rw [applyOps, List.foldl_cons, ← applyOps] at *; omega,
      by rw [applyOps, List.foldl_cons, ← applyOps] at *; omega⟩

/-- C1 (amended: for finite multipliers): after any sequence of `Insert`
and `Delete` operations whose insertions carry finite multipliers, every
cell's aggregate weight equals the sum of its occupants' stored
contributions; a full-overlap insert with finite multiplier `m` against a
cell rectangle of area `Width × Height` adds exactly that area times `m`
to the cell weight; and deleting a freshly inserted value whose cell did
not already contain it restores the prior weight and occupant list
exactly.  (With an infinite multiplier the invariant fails, see the
counterexample: `inf - inf = nan`.) -/
theorem C1_weight_accounting_amended {T : Type} [DecidableEq T] (x y : ℕ) (c : ℚ)
    (ops : List (GridOp T)) :
    (∀ i j : ℕ, i < x → j < y →
      (nodeAt (applyOps (NewSpatialGrid T x y c) ops) (i : ℤ) (j : ℤ)).weight =
        gfSum (((nodeAt (applyOps (NewSpatialGrid T x y c) ops)
          (i : ℤ) (j : ℤ)).Items).map (·.weight))) ∧
    (∀ (n : spatialGridNode T) (v : T) (b : Rectangle) (m : ℚ),
      b.MinPoint.x ≤ n.bounds.MinPoint.x → n.bounds.MaxPoint.x ≤ b.MaxPoint.x →
      b.MinPoint.y ≤ n.bounds.MinPoint.y → n.bounds.MaxPoint.y ≤ b.MaxPoint.y →
      0 ≤ n.bounds.Width → 0 ≤ n.bounds.Height →
      (n.Insert v b (.fin m)).weight =
        n.weight.add (.fin (n.bounds.Width * n.bounds.Height * m))) ∧
    (∀ (n : spatialGridNode T) (v : T) (b : Rectangle) (m : ℚ),
      v ∉ n.Values →
      ((n.Insert v b (.fin m)).Delete v).weight = n.weight ∧
      ((n.Insert v b (.fin m)).Delete v).Items = n.Items) := by
  refine ⟨?_, ?_, ?_⟩
  · intro i j hi hj
    have hg := GridInv_applyOps (GridInv_new T x y c) ops
    have hsz := applyOps_sizes (NewSpatialGrid T x y c) ops
    have hn := hg.2 i j (by rw [hsz.1]; exact hi) (by rw [hsz.2]; exact hj)
    rw [hn.2, ← gfSum_allFin _ hn.1]
  · intro n v b m h1 h2 h3 h4 hW hH
    have harea : n.bounds.AreaOfOverlap b = n.bounds.Width * n.bounds.Height := by
      unfold Rectangle.AreaOfOverlap
      rw [min_eq_left h2, max_eq_left h1, min_eq_left h4, max_eq_left h3]
      have hx : n.bounds.MaxPoint.x - n.bounds.MinPoint.x = n.bounds.Width := by
        simp only [Rectangle.MaxPoint, Rectangle.MinPoint]
        ring
      have hyv : n.bounds.MaxPoint.y - n.bounds.MinPoint.y = n.bounds.Height := by
        simp only [Rectangle.MaxPoint, Rectangle.MinPoint]
        ring
      rw [hx, hyv, max_eq_right hW, max_eq_right hH]
    show n.weight.add (GFloat.scale (n.bounds.AreaOfOverlap b) (.fin m)) = _
    rw [harea]
    rfl
  · intro n v b m hv
    have hnomatch : ∀ it ∈ n.Items.drop 0, it.value ≠ v := by
      intro it hit hvit
      apply hv
      rw [← hvit]
      show it.value ∈ n.Items.map fun e => e.value
      exact List.mem_map_of_mem _ (by simpa using hit)
    have hrun := delLoop_concat_match v
      (newSpatialGridNodeItem v b
        (GFloat.scale (n.bounds.AreaOfOverlap b) (.fin m)) (.fin m)) rfl
      (n.Items ++ [newSpatialGridNodeItem v b
        (GFloat.scale (n.bounds.AreaOfOverlap b) (.fin m)) (.fin m)]).length
      0 n.Items (n.weight.add (GFloat.scale (n.bounds.AreaOfOverlap b) (.fin m)))
      hnomatch (by omega) (by simp)
    have hDitems : (n.Insert v b (.fin m)).Items =
        n.Items ++ [newSpatialGridNodeItem v b
          (GFloat.scale (n.bounds.AreaOfOverlap b) (.fin m)) (.fin m)] := rfl
    have hDweight : (n.Insert v b (.fin m)).weight =
        n.weight.add (GFloat.scale (n.bounds.AreaOfOverlap b) (.fin m)) := rfl
    constructor
    · show (delLoop v (n.Insert v b (.fin m)).Items.length 0
        (n.Insert v b (.fin m)).Items (n.Insert v b (.fin m)).weight).2 = n.weight
      rw [hDitems, hDweight, hrun]
      exact GFloat.add_fin_sub_fin_cancel n.weight (n.bounds.AreaOfOverlap b * m)
    · show (delLoop v (n.Insert v b (.fin m)).Items.length 0
        (n.Insert v b (.fin m)).Items (n.Insert v b (.fin m)).weight).1 = n.Items
      rw [hDitems, hDweight, hrun]

theorem C1_weight_accounting_amended_witness :
    (nodeAt (applyOps (NewSpatialGrid ℤ 2 2 4)
        [GridOp.ins 1 (NewRectangle (NewVector 2 2) 4 4) 2,
         GridOp.ins 2 (NewRectangle (NewVector 2 2) 4 4) 3,
         GridOp.del 1 (NewRectangle (NewVector 2 2) 4 4)])
        ((0 : ℕ) : ℤ) ((0 : ℕ) : ℤ)).weight =
      gfSum (((nodeAt (applyOps (NewSpatialGrid ℤ 2 2 4)
        [GridOp.ins 1 (NewRectangle (NewVector 2 2) 4 4) 2,
         GridOp.ins 2 (NewRectangle (NewVector 2 2) 4 4) 3,
         GridOp.del 1 (NewRectangle (NewVector 2 2) 4 4)])
        ((0 : ℕ) : ℤ) ((0 : ℕ) : ℤ)).Items).map (·.weight)) :=
  (C1_weight_accounting_amended 2 2 4
    [GridOp.ins 1 (NewRectangle (NewVector 2 2) 4 4) 2,
     GridOp.ins 2 (NewRectangle (NewVector 2 2) 4 4) 3,
     GridOp.del 1 (NewRectangle (NewVector 2 2) 4 4)]).1 0 0
    (by decide) (by decide)

/-! ## C2: Insert touches exactly one cell -/

/-- C2: `Insert` resolves the single cell containing the bounds' reference
position via the coordinate mapping, appends the occupant record there,
adds its contributed weight to that cell's weight, increments the item
counter, and leaves every other cell untouched. -/
theorem C2_insert_single_cell {T : Type} (g : SpatialGrid T) (hwf : WF g)
    (hx : 1 ≤ g.SizeX) (hy : 1 ≤ g.SizeY) (val : T) (bounds : Rectangle)
    (multiplier : GFloat) :
    (nodeAt (g.Insert val bounds multiplier)
        (g.Location bounds.Position.x bounds.Position.y).1
        (g.Location bounds.Position.x bounds.Position.y).2).Items =
      (nodeAt g (g.Location bounds.Position.x bounds.Position.y).1
        (g.Location bounds.Position.x bounds.Position.y).2).Items ++
        [newSpatialGridNodeItem val bounds
          (GFloat.scale ((nodeAt g
            (g.Location bounds.Position.x bounds.Position.y).1
            (g.Location bounds.Position.x bounds.Position.y).2).bounds.AreaOfOverlap
            bounds) multiplier) multiplier] ∧
    (nodeAt (g.Insert val bounds multiplier)
        (g.Location bounds.Position.x bounds.Position.y).1
        (g.Location bounds.Position.x bounds.Position.y).2).weight =
      ((nodeAt g (g.Location bounds.Position.x bounds.Position.y).1
        (g.Location bounds.Position.x bounds.Position.y).2).weight).add
        (GFloat.scale ((nodeAt g
          (g.Location bounds.Position.x bounds.Position.y).1
          (g.Location bounds.Position.x bounds.Position.y).2).bounds.AreaOfOverlap
          bounds) multiplier) ∧
    (g.Insert val bounds multiplier).itemCount = g.itemCount + 1 ∧
    ∀ i j : ℕ, i < g.SizeX → j < g.SizeY →
      ((i : ℤ), (j : ℤ)) ≠ g.Location bounds.Position.x bounds.Position.y →
      nodeAt (g.Insert val bounds multiplier) (i : ℤ) (j : ℤ) =
        nodeAt g (i : ℤ) (j : ℤ) := by
  have hb := location_inBnd g hx hy bounds.Position.x bounds.Position.y
  obtain ⟨hb1, hb2, hb3, hb4⟩ := hb
  have hlt1 : (g.Location bounds.Position.x bounds.Position.y).1.toNat <
      g.Nodes.length := by
    rw [hwf.1]; omega
  have hlt2 : (g.Location bounds.Position.x bounds.Position.y).2.toNat <
      (g.Nodes.getD (g.Location bounds.Position.x bounds.Position.y).1.toNat
        []).length := by
    rw [(hwf.2 _ (by omega)).1]; omega
  have key : g.Insert val bounds multiplier =
      { setNode g (g.Location bounds.Position.x bounds.Position.y).1
          (g.Location bounds.Position.x bounds.Position.y).2
          ((nodeAt g (g.Location bounds.Position.x bounds.Position.y).1
            (g.Location bounds.Position.x bounds.Position.y).2).Insert val bounds
            multiplier) with
        itemCount := g.itemCount + 1 } := rfl
  have hself : nodeAt (g.Insert val bounds multiplier)
      (g.Location bounds.Position.x bounds.Position.y).1
      (g.Location bounds.Position.x bounds.Position.y).2 =
      (nodeAt g (g.Location bounds.Position.x bounds.Position.y).1
        (g.Location bounds.Position.x bounds.Position.y).2).Insert val bounds
        multiplier := by
    rw [key, nodeAt_itemCount, nodeAt_setNode, if_pos ⟨rfl, rfl, hlt1, hlt2⟩]
  refine ⟨by rw [hself]; rfl, by rw [hself]; rfl, rfl, ?_⟩
  intro i j hi hj hne
  rw [key, nodeAt_itemCount, nodeAt_setNode, if_neg ?_]
  rintro ⟨h1, h2, _, _⟩
  apply hne
  rw [Prod.mk.injEq]
  constructor <;> omega

theorem C2_insert_single_cell_witness :
    ((NewSpatialGrid ℤ 4 4 8).Insert 7 (NewRectangle (NewVector 4 4) 2 2)
        (.fin 2)).itemCount = (NewSpatialGrid ℤ 4 4 8).itemCount + 1 ∧
    nodeAt ((NewSpatialGrid ℤ 4 4 8).Insert 7 (NewRectangle (NewVector 4 4) 2 2)
        (.fin 2)) ((1 : ℕ) : ℤ) ((1 : ℕ) : ℤ) =
      nodeAt (NewSpatialGrid ℤ 4 4 8) ((1 : ℕ) : ℤ) ((1 : ℕ) : ℤ) :=
  ⟨(C2_insert_single_cell (NewSpatialGrid ℤ 4 4 8) (by with_unfolding_all decide)
      (by decide) (by decide) 7 (NewRectangle (NewVector 4 4) 2 2)
      (.fin 2)).2.2.1,
    (C2_insert_single_cell (NewSpatialGrid ℤ 4 4 8) (by with_unfolding_all decide)
      (by decide) (by decide) 7 (NewRectangle (NewVector 4 4) 2 2)
      (.fin 2)).2.2.2 1 1 (by decide) (by decide)
      (by with_unfolding_all decide)⟩

/-! ## C3: the obstacle-free straight path -/

/-- C3: on the obstacle-free 4×4 grid of chunk size 10 (every cell weight
is zero), `WeightedSearch` from `(5,5)` to `(35,5)` with maxDepth 32
succeeds with exactly the waypoints `(5,5), (15,5), (25,5), (35,5)`, and
these are precisely the center points `index*chunkSize + chunkSize/2` of
the cells `(0,0), (1,0), (2,0), (3,0)`. -/
theorem C3_weighted_search_straight_path :
    ((List.range 4).all fun i => (List.range 4).all fun j =>
      (nodeAt (NewSpatialGrid ℤ 4 4 10) (i : ℤ) (j : ℤ)).weight == .fin 0) = true ∧
    (NewSpatialGrid ℤ 4 4 10).WeightedSearch (NewVector 5 5) (NewVector 35 5) 32 =
      .ok [NewVector 5 5, NewVector 15 5, NewVector 25 5, NewVector 35 5] ∧
    [NewVector 5 5, NewVector 15 5, NewVector 25 5, NewVector 35 5] =
      ([(0, 0), (1, 0), (2, 0), (3, 0)] : List (ℤ × ℤ)).map fun p =>
        NewVector ((p.1 : ℚ) * 10 + 10 / 2) ((p.2 : ℚ) * 10 + 10 / 2) := by
  refine ⟨by with_unfolding_all decide, by with_unfolding_all decide,
    by with_unfolding_all decide⟩

/-! ## C4 machinery: reachability, edges, the priority queue -/

theorem nodeAt_coords {T : Type} {g : SpatialGrid T} (hwf : WF g) {a b : ℤ}
    (hb : inBnd g (a, b)) :
    (nodeAt g a b).x = a ∧ (nodeAt g a b).y = b := by
  obtain ⟨h1, h2, h3, h4⟩ := hb
  have hcong : nodeAt g a b = nodeAt g (a.toNat : ℤ) (b.toNat : ℤ) :=
    nodeAt_toNat_congr g (by omega) (by omega)
  have hc := (hwf.2 a.toNat (by omega)).2 b.toNat (by omega)
  rw [hcong, hc.1, hc.2]
  omega

theorem mem_Edges {T : Type} {g : SpatialGrid T} (hwf : WF g)
    {cur e : spatialGridNode T} (he : e ∈ g.Edges cur) :
    ∃ d ∈ directions, e = nodeAt g (cur.x + d.1) (cur.y + d.2) ∧
      inBnd g (cur.x + d.1, cur.y + d.2) ∧
      (e.x, e.y) = (cur.x + d.1, cur.y + d.2) := by
  obtain ⟨d, hd, hfd⟩ := List.mem_filterMap.mp he
  by_cases hout : cur.x + d.1 < 0 ∨ cur.x + d.1 ≥ (g.SizeX : ℤ) ∨
      cur.y + d.2 < 0 ∨ cur.y + d.2 ≥ (g.SizeY : ℤ)
  · rw [if_pos hout] at hfd
    exact absurd hfd (by simp)
  · rw [if_neg hout] at hfd
    push_neg at hout
    have hb : inBnd g (cur.x + d.1, cur.y + d.2) :=
      ⟨hout.1, hout.2.1, hout.2.2.1, hout.2.2.2⟩
    have hcoords := nodeAt_coords hwf hb
    refine ⟨d, hd, ?_, hb, ?_⟩
    · rw [← Option.some_inj.mp hfd]
      rfl
    · rw [← Option.some_inj.mp hfd]
      show ((nodeAt g (cur.x + d.1) (cur.y + d.2)).x,
        (nodeAt g (cur.x + d.1) (cur.y + d.2)).y) = _
      rw [hcoords.1, hcoords.2]

theorem pqPop_spec {α : Type _} :
    ∀ (l : List (α × GFloat)) (x : α × GFloat) (rest : List (α × GFloat)),
      pqPop l = some (x, rest) → x ∈ l ∧ ∀ z ∈ rest, z ∈ l := by
  intro l
  induction l with
  | nil => intro x rest h; exact absurd h (by simp [pqPop])
  | cons hd tl ih =>
    intro x rest h
    obtain ⟨a, p⟩ := hd
    rw [pqPop] at h
    cases hpop : pqPop tl with
    | none =>
      rw [hpop] at h
      obtain ⟨h1, h2⟩ := Prod.mk.injEq .. ▸ Option.some_inj.mp h
      subst h1
      subst h2
      exact ⟨List.mem_cons_self _ _, by simp⟩
    | some pr =>
      obtain ⟨⟨b, q⟩, tl1⟩ := pr
      rw [hpop] at h
      dsimp only at h
      have hspec := ih (b, q) tl1 hpop
      by_cases hlt : GFloat.blt q p
      · rw [if_pos hlt] at h
        obtain ⟨h1, h2⟩ := Prod.mk.injEq .. ▸ Option.some_inj.mp h
        subst h1
        subst h2
        constructor
        · exact List.mem_cons_of_mem _ hspec.1
        · intro z hz
          rcases List.mem_cons.mp hz with hz | hz
          · exact hz ▸ List.mem_cons_self _ _
          · exact List.mem_cons_of_mem _ (hspec.2 z hz)
      · rw [if_neg hlt] at h
        obtain ⟨h1, h2⟩ := Prod.mk.injEq .. ▸ Option.some_inj.mp h
        subst h1
        subst h2
        exact ⟨List.mem_cons_self _ _, fun z hz => List.mem_cons_of_mem _ hz⟩

theorem alookup_mem {β : Type} {l : List ((ℤ × ℤ) × β)} {k : ℤ × ℤ} {v : β}
    (h : alookup l k = some v) : (k, v) ∈ l := by
  unfold alookup at h
  cases hfind : l.find? fun p => decide (p.1 = k) with
  | none => rw [hfind] at h; exact absurd h (by simp)
  | some p =>
    rw [hfind] at h
    have hp1 : p ∈ l := List.mem_of_find?_eq_some hfind
    have hp2a := List.find?_some hfind
    have hp2 : p.1 = k := of_decide_eq_true hp2a
    have hp3 : p.2 = v := by simpa using h
    have : (k, v) = p := by
      rw [← hp2, ← hp3]
    rw [this]
    exact hp1

theorem not_finReach_of_closed {T : Type} (g : SpatialGrid T) (S : List (ℤ × ℤ))
    (s t : ℤ × ℤ) (hs : s ∈ S)
    (hclosed : ∀ a ∈ S, ∀ d ∈ directions,
      (inBnd g (a.1 + d.1, a.2 + d.2) ∧
        (nodeAt g (a.1 + d.1) (a.2 + d.2)).weight ≠ .inf) →
      (a.1 + d.1, a.2 + d.2) ∈ S)
    (ht : t ∉ S) : ¬ FinReach g s t := by
  intro h
  refine ht ?_
  clear ht
  induction h with
  | refl => exact hs
  | tail hab hbc ih =>
    obtain ⟨d, hd, hc, hinb, hw⟩ := hbc
    rw [hc] at hinb hw ⊢
    exact hclosed _ ih d hd ⟨hinb, by simpa using hw⟩

theorem edge_weight_good {T : Type} {g : SpatialGrid T} (hwf : WF g)
    (hgw : GoodWeights g) {cur e : spatialGridNode T} (he : e ∈ g.Edges cur) :
    e.weight = .inf ∨ ∃ q, e.weight = .fin q := by
  obtain ⟨d, hd, heq, hb, hco⟩ := mem_Edges hwf he
  obtain ⟨h1, h2, h3, h4⟩ := hb
  have hcong : nodeAt g (cur.x + d.1) (cur.y + d.2) =
      nodeAt g ((cur.x + d.1).toNat : ℤ) ((cur.y + d.2).toNat : ℤ) :=
    nodeAt_toNat_congr g (by omega) (by omega)
  have hg := hgw (cur.x + d.1).toNat (by omega) (cur.y + d.2).toNat (by omega)
  rw [← hcong, ← heq] at hg
  cases hw : e.weight with
  | fin q => exact Or.inr ⟨q, rfl⟩
  | inf => exact Or.inl rfl
  | ninf => rw [hw] at hg; exact absurd hg (by simp [GFloat.isGoodWeight])
  | nan => rw [hw] at hg; exact absurd hg (by simp [GFloat.isGoodWeight])

theorem finStep_edge {T : Type} {g : SpatialGrid T} (hwf : WF g)
    {cur e : spatialGridNode T} (he : e ∈ g.Edges cur) (hne : e.weight ≠ .inf) :
    finStep g (cur.x, cur.y) (e.x, e.y) := by
  obtain ⟨d, hd, heq, hb, hco⟩ := mem_Edges hwf he
  refine ⟨d, hd, hco, ?_, ?_⟩
  · rw [hco]; exact hb
  · have : nodeAt g (e.x, e.y).1 (e.x, e.y).2 =
        nodeAt g (cur.x + d.1) (cur.y + d.2) := by rw [hco]
    rw [this, ← heq]
    exact hne

theorem relaxEdges_inv {T : Type} {g : SpatialGrid T} (hwf : WF g)
    (hgw : GoodWeights g) (endNode cur : spatialGridNode T) (startIx : ℤ × ℤ)
    (hcur : FinReach g startIx (cur.x, cur.y)) :
    ∀ (edges : List (spatialGridNode T)) (st : WSState T),
      (∀ e ∈ edges, e ∈ g.Edges cur) →
      (∀ p ∈ st.pq, FinReach g startIx (p.1.x, p.1.y)) →
      (∀ kc ∈ st.costs, FinReach g startIx kc.1 ∧ ∃ q, kc.2 = .fin q) →
      (∀ kn ∈ st.cameFrom, FinReach g startIx kn.1) →
      (∀ p ∈ (relaxEdges endNode cur edges st).pq,
        FinReach g startIx (p.1.x, p.1.y)) ∧
      (∀ kc ∈ (relaxEdges endNode cur edges st).costs,
        FinReach g startIx kc.1 ∧ ∃ q, kc.2 = .fin q) ∧
      (∀ kn ∈ (relaxEdges endNode cur edges st).cameFrom,
        FinReach g startIx kn.1) := by
  intro edges
  induction edges with
  | nil => exact fun st _ h1 h2 h3 => ⟨h1, h2, h3⟩
  | cons e rest ih =>
    intro st hedges hpq hcosts hcame
    have hrest : ∀ x ∈ rest, x ∈ g.Edges cur := fun x hx =>
      hedges x (List.mem_cons_of_mem _ hx)
    have hehd : e ∈ g.Edges cur := hedges e (List.mem_cons_self _ _)
    have hq0 : ∃ q0, (alookup st.costs (cur.x, cur.y)).getD (.fin 0) =
        .fin q0 := by
      cases halo : alookup st.costs (cur.x, cur.y) with
      | none => exact ⟨0, rfl⟩
      | some c =>
        obtain ⟨_, q, hc⟩ := hcosts _ (alookup_mem halo)
        exact ⟨q, by rw [Option.getD_some]; exact hc⟩
    obtain ⟨q0, hq0⟩ := hq0
    rw [relaxEdges, hq0]
    rcases edge_weight_good hwf hgw hehd with hw | ⟨qe, hw⟩
    · rw [hw]
      simp only [GFloat.add, GFloat.isPosInf, if_pos]
      exact ih st hrest hpq hcosts hcame
    · rw [hw]
      simp only [GFloat.add, GFloat.isPosInf, Bool.false_eq_true, if_false]
      have hreach : FinReach g startIx (e.x, e.y) :=
        Relation.ReflTransGen.tail hcur
          (finStep_edge hwf hehd (by rw [hw]; exact fun hcon => by cases hcon))
      have hinvs : ∀ pri : GFloat,
          (∀ p ∈ st.pq ++ [(e, pri)], FinReach g startIx (p.1.x, p.1.y)) ∧
          (∀ kc ∈ ((e.x, e.y), GFloat.fin (q0 + qe)) :: st.costs,
            FinReach g startIx kc.1 ∧ ∃ q, kc.2 = .fin q) ∧
          (∀ kn ∈ ((e.x, e.y), cur) :: st.cameFrom,
            FinReach g startIx kn.1) := by
        intro pri
        refine ⟨?_, ?_, ?_⟩
        · intro p hp
          rcases List.mem_append.mp hp with hp | hp
          · exact hpq p hp
          · rw [List.mem_singleton] at hp
            subst hp
            exact hreach
        · intro kc hkc
          rcases List.mem_cons.mp hkc with hkc | hkc
          · subst hkc
            exact ⟨hreach, q0 + qe, rfl⟩
          · exact hcosts kc hkc
        · intro kn hkn
          rcases List.mem_cons.mp hkn with hkn | hkn
          · subst hkn
            exact hreach
          · exact hcame kn hkn
      cases halo : alookup st.costs (e.x, e.y) with
      | some edgeCost =>
        dsimp only
        by_cases hge : (GFloat.fin (q0 + qe)).bge edgeCost
        · rw [if_pos hge]
          exact ih st hrest hpq hcosts hcame
        · rw [if_neg hge]
          obtain ⟨hp1, hp2, hp3⟩ := hinvs ((GFloat.fin (q0 + qe)).add
            (heuristic e endNode))
          exact ih _ hrest hp1 hp2 hp3
      | none =>
        dsimp only
        obtain ⟨hp1, hp2, hp3⟩ := hinvs ((GFloat.fin (q0 + qe)).add
          (heuristic e endNode))
        exact ih _ hrest hp1 hp2 hp3

theorem wsLoop_blocked {T : Type} {g : SpatialGrid T} (hwf : WF g)
    (hgw : GoodWeights g) (endNode : spatialGridNode T) (maxD : ℤ)
    (startIx : ℤ × ℤ)
    (hend : ¬ FinReach g startIx (endNode.x, endNode.y)) :
    ∀ (fuel : ℕ) (st : WSState T) (d : ℤ),
      (∀ p ∈ st.pq, FinReach g startIx (p.1.x, p.1.y)) →
      (∀ kc ∈ st.costs, FinReach g startIx kc.1 ∧ ∃ q, kc.2 = .fin q) →
      (∀ kn ∈ st.cameFrom, FinReach g startIx kn.1) →
      (wsLoop g endNode maxD fuel st d).2 ≠ .reachedEnd ∧
      (∀ kc ∈ (wsLoop g endNode maxD fuel st d).1.costs,
        FinReach g startIx kc.1) ∧
      (∀ kn ∈ (wsLoop g endNode maxD fuel st d).1.cameFrom,
        FinReach g startIx kn.1) := by
  intro fuel
  induction fuel with
  | zero =>
    intro st d hpq hcosts hcame
    rw [wsLoop]
    split_ifs with h1 h2
    · exact ⟨fun hcon => WSExit.noConfusion hcon,
        fun kc hkc => (hcosts kc hkc).1, hcame⟩
    · exact ⟨fun hcon => WSExit.noConfusion hcon,
        fun kc hkc => (hcosts kc hkc).1, hcame⟩
    · exact ⟨fun hcon => WSExit.noConfusion hcon,
        fun kc hkc => (hcosts kc hkc).1, hcame⟩
  | succ fuel ih =>
    intro st d hpq hcosts hcame
    rw [wsLoop]
    split_ifs with h1 h2
    · exact ⟨fun hcon => WSExit.noConfusion hcon,
        fun kc hkc => (hcosts kc hkc).1, hcame⟩
    · exact ⟨fun hcon => WSExit.noConfusion hcon,
        fun kc hkc => (hcosts kc hkc).1, hcame⟩
    cases hpop : pqPop st.pq with
    | none =>
      dsimp only
      exact ⟨fun hcon => WSExit.noConfusion hcon,
        fun kc hkc => (hcosts kc hkc).1, hcame⟩
    | some pr =>
      obtain ⟨⟨cur, pri⟩, rest⟩ := pr
      dsimp only
      have hcurm := (pqPop_spec st.pq (cur, pri) rest hpop).1
      have hcur : FinReach g startIx (cur.x, cur.y) := hpq _ hcurm
      rw [if_neg ?hbrk]
      case hbrk =>
        rintro ⟨hb1, hb2⟩
        apply hend
        have hpair : (cur.x, cur.y) = (endNode.x, endNode.y) := by rw [hb1, hb2]
        exact hpair ▸ hcur
      have hrest := (pqPop_spec st.pq (cur, pri) rest hpop).2
      have hrelax := relaxEdges_inv hwf hgw endNode cur startIx hcur
        (g.Edges cur) { st with pq := rest } (fun e he => he)
        (fun p hp => hpq p (hrest p hp)) hcosts hcame
      exact ih _ _ hrelax.1 hrelax.2.1 hrelax.2.2

/-- C4 counterexample: on a 4×4 grid (chunk size 10) where the cells
`(2,3)` and `(3,2)` — the only neighbors of the target cell `(3,3)` —
carry infinite-multiplier occupants, every route from the start cell
`(0,0)` to the target passes through an infinite-weight cell; yet with
`maxDepth = 0` `WeightedSearch` returns `MaxDepthReached`, not the claimed
`PathNotFound` (the iteration budget runs out first). -/
theorem C4_unreachable_counterexample :
    (let g := ((NewSpatialGrid ℤ 4 4 10).Insert 1
        (NewRectangle (NewVector 25 35) 10 10) .inf).Insert 2
        (NewRectangle (NewVector 35 25) 10 10) .inf
    ¬ FinReach g (g.Location 5 5) (g.Location 35 35) ∧
      g.WeightedSearch (NewVector 5 5) (NewVector 35 35) 0 =
        .error .maxDepthReached) := by
  exact ⟨not_finReach_of_closed _
    [((0 : ℤ), (0 : ℤ)), (0, 1), (0, 2), (0, 3), (1, 0), (1, 1), (1, 2), (1, 3),
      (2, 0), (2, 1), (2, 2), (3, 0), (3, 1)] _ _
    (by with_unfolding_all decide) (by with_unfolding_all decide)
    (by with_unfolding_all decide), by with_unfolding_all decide⟩

/-- C4 (amended): on a well-formed grid whose cell weights come from the
multiplier contract (finite non-negative or `+inf`), whenever every route
from the start cell to the end cell passes through an infinite-weight
cell, `WeightedSearch` never creates a cost or predecessor record for a
cell that is not finite-weight-reachable from the start (infinite-cost
edges are never relaxed), and it returns `PathNotFound` — unless the
iteration budget `maxDepth` is exhausted first, in which case it returns
`MaxDepthReached`; it never succeeds. -/
theorem C4_inf_pruning_amended {T : Type} (g : SpatialGrid T) (hwf : WF g)
    (hx : 1 ≤ g.SizeX) (hy : 1 ≤ g.SizeY) (hgw : GoodWeights g)
    (s e : Vector) (maxD : ℤ)
    (hreach : ¬ FinReach g (g.Location s.x s.y) (g.Location e.x e.y)) :
    (∀ ix : ℤ × ℤ, (alookup (wsRun g s e maxD).1.costs ix).isSome →
      FinReach g (g.Location s.x s.y) ix) ∧
    (∀ ix : ℤ × ℤ, (alookup (wsRun g s e maxD).1.cameFrom ix).isSome →
      FinReach g (g.Location s.x s.y) ix) ∧
    (g.WeightedSearch s e maxD = .error .pathNotFound ∨
      g.WeightedSearch s e maxD = .error .maxDepthReached) := by
  have hbS : inBnd g ((g.Location s.x s.y).1, (g.Location s.x s.y).2) := by
    rw [Prod.mk.eta]
    exact location_inBnd g hx hy s.x s.y
  have hbE : inBnd g ((g.Location e.x e.y).1, (g.Location e.x e.y).2) := by
    rw [Prod.mk.eta]
    exact location_inBnd g hx hy e.x e.y
  have hsx : (g.NodeAtPosition s.x s.y).x = (g.Location s.x s.y).1 ∧
      (g.NodeAtPosition s.x s.y).y = (g.Location s.x s.y).2 :=
    nodeAt_coords hwf hbS
  have hex : (g.NodeAtPosition e.x e.y).x = (g.Location e.x e.y).1 ∧
      (g.NodeAtPosition e.x e.y).y = (g.Location e.x e.y).2 :=
    nodeAt_coords hwf hbE
  have hstartIx : ((g.NodeAtPosition s.x s.y).x, (g.NodeAtPosition s.x s.y).y) =
      g.Location s.x s.y := by rw [hsx.1, hsx.2]
  have hendIx : ((g.NodeAtPosition e.x e.y).x, (g.NodeAtPosition e.x e.y).y) =
      g.Location e.x e.y := by rw [hex.1, hex.2]
  have hend2 : ¬ FinReach g
      ((g.NodeAtPosition s.x s.y).x, (g.NodeAtPosition s.x s.y).y)
      ((g.NodeAtPosition e.x e.y).x, (g.NodeAtPosition e.x e.y).y) := by
    rw [hstartIx, hendIx]
    exact hreach
  have hmain := wsLoop_blocked hwf hgw (g.NodeAtPosition e.x e.y) maxD
    ((g.NodeAtPosition s.x s.y).x, (g.NodeAtPosition s.x s.y).y) hend2
    (maxD + 2).toNat
    { pq := [(g.NodeAtPosition s.x s.y, .fin 0)]
      costs := [(((g.NodeAtPosition s.x s.y).x, (g.NodeAtPosition s.x s.y).y),
        .fin 0)]
      cameFrom := [(((g.NodeAtPosition s.x s.y).x,
        (g.NodeAtPosition s.x s.y).y), g.NodeAtPosition s.x s.y)] } 0
    (by
      intro p hp
      rw [List.mem_singleton] at hp
      subst hp
      exact Relation.ReflTransGen.refl)
    (by
      intro kc hkc
      rw [List.mem_singleton] at hkc
      subst hkc
      exact ⟨Relation.ReflTransGen.refl, 0, rfl⟩)
    (by
      intro kn hkn
      rw [List.mem_singleton] at hkn
      subst hkn
      exact Relation.ReflTransGen.refl)
  have hm1 : (wsRun g s e maxD).2 ≠ .reachedEnd := hmain.1
  have hm2 : ∀ kc ∈ (wsRun g s e maxD).1.costs,
      FinReach g ((g.NodeAtPosition s.x s.y).x, (g.NodeAtPosition s.x s.y).y)
        kc.1 := hmain.2.1
  have hm3 : ∀ kn ∈ (wsRun g s e maxD).1.cameFrom,
      FinReach g ((g.NodeAtPosition s.x s.y).x, (g.NodeAtPosition s.x s.y).y)
        kn.1 := hmain.2.2
  refine ⟨?_, ?_, ?_⟩
  · intro ix hsome
    obtain ⟨v, hv⟩ := Option.isSome_iff_exists.mp hsome
    have := hm2 _ (alookup_mem hv)
    rwa [hstartIx] at this
  · intro ix hsome
    obtain ⟨v, hv⟩ := Option.isSome_iff_exists.mp hsome
    have := hm3 _ (alookup_mem hv)
    rwa [hstartIx] at this
  · simp only [SpatialGrid.WeightedSearch]
    cases hexit : (wsRun g s e maxD).2 with
    | reachedEnd => exact absurd hexit hm1
    | depthError => exact Or.inr rfl
    | exhausted =>
      cases halo : alookup (wsRun g s e maxD).1.cameFrom
          ((g.NodeAtPosition e.x e.y).x, (g.NodeAtPosition e.x e.y).y) with
      | none => exact Or.inl rfl
      | some v =>
        have := hm3 _ (alookup_mem halo)
        rw [hstartIx] at this
        rw [hendIx] at this
        exact absurd this hreach

theorem C4_inf_pruning_amended_witness :
    (((NewSpatialGrid ℤ 4 4 10).Insert 1
        (NewRectangle (NewVector 25 35) 10 10) .inf).Insert 2
        (NewRectangle (NewVector 35 25) 10 10) .inf).WeightedSearch
        (NewVector 5 5) (NewVector 35 35) 64 = .error .pathNotFound ∨
    (((NewSpatialGrid ℤ 4 4 10).Insert 1
        (NewRectangle (NewVector 25 35) 10 10) .inf).Insert 2
        (NewRectangle (NewVector 35 25) 10 10) .inf).WeightedSearch
        (NewVector 5 5) (NewVector 35 35) 64 = .error .maxDepthReached :=
  (C4_inf_pruning_amended _ (by with_unfolding_all decide) (by decide)
    (by decide) (by with_unfolding_all decide) (NewVector 5 5)
    (NewVector 35 35) 64
    (not_finReach_of_closed _
      [((0 : ℤ), (0 : ℤ)), (0, 1), (0, 2), (0, 3), (1, 0), (1, 1), (1, 2),
        (1, 3), (2, 0), (2, 1), (2, 2), (3, 0), (3, 1)] _ _
      (by with_unfolding_all decide) (by with_unfolding_all decide)
      (by with_unfolding_all decide))).2.2

/-! ## C10: same start and end cell -/

theorem wsLoop_break_first {T : Type} (sg : SpatialGrid T)
    (endNode : spatialGridNode T) (maxD : ℤ) (f : ℕ) (n : spatialGridNode T)
    (pri : GFloat) (st : WSState T) (hpq : st.pq = [(n, pri)])
    (hd : ¬(0 : ℤ) > maxD) (hbreak : n.x = endNode.x ∧ n.y = endNode.y) :
    wsLoop sg endNode maxD (f + 1) st 0 = ({ st with pq := [] }, .reachedEnd) := by
  rw [wsLoop, hpq]
  simp only [List.isEmpty_cons, Bool.false_eq_true, if_false, if_neg hd, pqPop]
  rw [if_pos hbreak]

/-- C10: whenever the start and end coordinates resolve to the same cell,
`WeightedSearch` with any non-negative `maxDepth` succeeds immediately
(the first dequeued cell is the end cell) and returns exactly one
waypoint, the center point of that cell — regardless of the cell's
weight, which is never read. -/
theorem C10_same_cell_single_waypoint {T : Type} (g : SpatialGrid T) (hwf : WF g)
    (hx : 1 ≤ g.SizeX) (hy : 1 ≤ g.SizeY) (s e : Vector) (maxD : ℤ)
    (hd : 0 ≤ maxD) (hsame : g.Location s.x s.y = g.Location e.x e.y) :
    g.WeightedSearch s e maxD = .ok
      [NewVector (((g.Location s.x s.y).1 : ℚ) * g.ChunkSize + g.ChunkSize / 2)
        (((g.Location s.x s.y).2 : ℚ) * g.ChunkSize + g.ChunkSize / 2)] := by
  have hend : g.NodeAtPosition e.x e.y = g.NodeAtPosition s.x s.y := by
    simp only [SpatialGrid.NodeAtPosition, ← hsame]
  obtain ⟨f, hf⟩ : ∃ f, (maxD + 2).toNat = f + 1 := ⟨(maxD + 1).toNat, by omega⟩
  have hrun : wsRun g s e maxD =
      ({ pq := []
         costs := [(((g.NodeAtPosition s.x s.y).x, (g.NodeAtPosition s.x s.y).y),
           .fin 0)]
         cameFrom := [(((g.NodeAtPosition s.x s.y).x,
           (g.NodeAtPosition s.x s.y).y), g.NodeAtPosition s.x s.y)] },
        .reachedEnd) := by
    simp only [wsRun, hend, hf]
    exact wsLoop_break_first g _ maxD f _ _ _ rfl (by omega) ⟨rfl, rfl⟩
  have hfind : alookup
      [(((g.NodeAtPosition s.x s.y).x, (g.NodeAtPosition s.x s.y).y),
        g.NodeAtPosition s.x s.y)]
      ((g.NodeAtPosition s.x s.y).x, (g.NodeAtPosition s.x s.y).y) =
      some (g.NodeAtPosition s.x s.y) := by
    simp [alookup]
  have hwalk : walkBack
      ((g.NodeAtPosition s.x s.y).x, (g.NodeAtPosition s.x s.y).y)
      [(((g.NodeAtPosition s.x s.y).x, (g.NodeAtPosition s.x s.y).y),
        g.NodeAtPosition s.x s.y)] 2 (g.NodeAtPosition s.x s.y) [] = [] := by
    rw [walkBack, if_pos rfl]
  have hcoords : (g.NodeAtPosition s.x s.y).x = (g.Location s.x s.y).1 ∧
      (g.NodeAtPosition s.x s.y).y = (g.Location s.x s.y).2 := by
    have hb := location_inBnd g hx hy s.x s.y
    obtain ⟨hb1, hb2, hb3, hb4⟩ := hb
    have hcong : nodeAt g (g.Location s.x s.y).1 (g.Location s.x s.y).2 =
        nodeAt g ((g.Location s.x s.y).1.toNat : ℤ)
          ((g.Location s.x s.y).2.toNat : ℤ) :=
      nodeAt_toNat_congr g (by omega) (by omega)
    have hc := (hwf.2 (g.Location s.x s.y).1.toNat (by omega)).2
      (g.Location s.x s.y).2.toNat (by omega)
    show (nodeAt g (g.Location s.x s.y).1 (g.Location s.x s.y).2).x = _ ∧
      (nodeAt g (g.Location s.x s.y).1 (g.Location s.x s.y).2).y = _
    rw [hcong, hc.1, hc.2]
    omega
  simp only [SpatialGrid.WeightedSearch, hend, hrun, hfind, List.length_cons,
    List.length_nil, hwalk, List.nil_append, List.reverse_cons, List.reverse_nil,
    List.map_cons, List.map_nil]
  rw [hcoords.1, hcoords.2]

theorem C10_same_cell_single_waypoint_witness :
    ((NewSpatialGrid ℤ 2 2 10).Insert 7 (NewRectangle (NewVector 5 5) 10 10)
      .inf).WeightedSearch (NewVector 5 5) (NewVector 6 6) 0 =
      .ok [NewVector 5 5] := by
  have h := C10_same_cell_single_waypoint
    ((NewSpatialGrid ℤ 2 2 10).Insert 7 (NewRectangle (NewVector 5 5) 10 10) .inf)
    (by with_unfolding_all decide) (by decide) (by decide) (NewVector 5 5)
    (NewVector 6 6) 0 (by decide) (by with_unfolding_all decide)
  rw [h]
  congr 1
  with_unfolding_all decide

/-! ## C5: the bounded flood search -/

/-- C5 counterexample: the code enqueues every in-bounds neighbor of a
newly visited cell, including already visited ones (the `Edges` call has
no visited filter; duplicates are discarded at dequeue time).  On a 2×2
grid starting at cell `(0,0)`, after level 1 the queue prepared for level
2 contains the start cell `(0,0)` even though it was visited at level 0 —
refuting "only its unvisited in-bounds 4-connected neighbors are
enqueued". -/
theorem C5_search_enqueue_counterexample :
    (let g := NewSpatialGrid ℤ 2 2 10
    let f : List ℤ → Option Unit := fun _ => none
    let st1 := levelStep g f [g.NodeAtPosition 5 5] ⟨[], [], [], none⟩
    let st2 := levelStep g f st1.queue ⟨[], st1.visited, st1.trace, none⟩
    ((0 : ℤ), (0 : ℤ)) ∈ st1.visited ∧
      ((0 : ℤ), (0 : ℤ)) ∈ st2.queue.map fun n => (n.x, n.y)) := by
  with_unfolding_all decide

theorem levelStep_nodup {T E : Type} (sg : SpatialGrid T) (f : List T → Option E) :
    ∀ (batch : List (spatialGridNode T)) (st : SearchState T E),
      (st.trace.map Prod.fst).Nodup → (∀ p ∈ st.trace, p.1 ∈ st.visited) →
      ((levelStep sg f batch st).trace.map Prod.fst).Nodup ∧
        ∀ p ∈ (levelStep sg f batch st).trace, p.1 ∈ (levelStep sg f batch st).visited := by
  intro batch
  induction batch with
  | nil => exact fun st h1 h2 => ⟨h1, h2⟩
  | cons n rest ih =>
    intro st h1 h2
    rw [levelStep]
    by_cases hvis : (n.x, n.y) ∈ st.visited
    · rw [if_pos hvis]
      exact ih st h1 h2
    · rw [if_neg hvis]
      have h1b : ((st.trace ++ [((n.x, n.y), n.Values)]).map Prod.fst).Nodup := by
        rw [List.map_append]
        refine List.Nodup.append h1 (List.nodup_singleton _) ?_
        intro a ha hb
        rw [List.map_singleton, List.mem_singleton] at hb
        subst hb
        obtain ⟨p, hp, hpa⟩ := List.mem_map.mp ha
        have hmem := h2 p hp
        rw [hpa] at hmem
        exact hvis hmem
      have h2b : ∀ p ∈ st.trace ++ [((n.x, n.y), n.Values)],
          p.1 ∈ (n.x, n.y) :: st.visited := by
        intro p hp
        rcases List.mem_append.mp hp with hp | hp
        · exact List.mem_cons_of_mem _ (h2 p hp)
        · rw [List.mem_singleton] at hp
          subst hp
          exact List.mem_cons_self _ _
      cases hf : f n.Values with
      | some e => exact ⟨h1b, h2b⟩
      | none => exact ih _ h1b h2b

theorem levelStep_queue_mono {T E : Type} (sg : SpatialGrid T)
    (f : List T → Option E) :
    ∀ (batch : List (spatialGridNode T)) (st : SearchState T E),
      ∀ e ∈ st.queue, e ∈ (levelStep sg f batch st).queue := by
  intro batch
  induction batch with
  | nil => exact fun st e he => he
  | cons n rest ih =>
    intro st e he
    rw [levelStep]
    by_cases hvis : (n.x, n.y) ∈ st.visited
    · rw [if_pos hvis]
      exact ih st e he
    · rw [if_neg hvis]
      cases hf : f n.Values with
      | some _ => exact he
      | none => exact ih _ e (List.mem_append_left _ he)

theorem searchLoop_nodup {T E : Type} (sg : SpatialGrid T) (f : List T → Option E)
    (maxDepth : ℤ) :
    ∀ (fuel : ℕ) (queue : List (spatialGridNode T)) (vis : List (ℤ × ℤ))
      (tr : List ((ℤ × ℤ) × List T)) (d : ℤ),
      (tr.map Prod.fst).Nodup → (∀ p ∈ tr, p.1 ∈ vis) →
      (((searchLoop sg f maxDepth fuel queue vis tr d).1).map Prod.fst).Nodup := by
  intro fuel
  induction fuel with
  | zero =>
    intro queue vis tr d h1 _
    rw [searchLoop]
    split_ifs <;> exact h1
  | succ fuel ih =>
    intro queue vis tr d h1 h2
    rw [searchLoop]
    split_ifs with hq hd
    · exact h1
    · exact h1
    have hstep := levelStep_nodup sg f queue ⟨[], vis, tr, none⟩ h1 h2
    cases herr : (levelStep sg f queue ⟨[], vis, tr, none⟩).err with
    | some e =>
      simp only [herr]
      exact hstep.1
    | none =>
      simp only [herr]
      exact ih _ _ _ _ hstep.1 hstep.2

/-- C5 (amended): the flood search dequeues every queued cell of the
current level; a not-previously-visited cell is marked visited and its
occupants are passed to the visitor exactly once (the trace of visitor
calls never repeats a cell), but ALL of its in-bounds 4-connected
neighbors are enqueued for the next level — previously visited neighbors
included, which are discarded when dequeued; the loop returns success
exactly when the queue empties with no error and the max-depth-exceeded
error exactly when the level counter exceeds `maxDepth` while cells
remain queued. -/
theorem C5_search_amended {T E : Type} (g : SpatialGrid T) (f : List T → Option E)
    (x y : ℚ) (maxDepth : ℤ) :
    ((g.Search x y maxDepth f).1.map Prod.fst).Nodup ∧
    (∀ (n : spatialGridNode T) (rest : List (spatialGridNode T))
      (st : SearchState T E), (n.x, n.y) ∉ st.visited → f n.Values = none →
      ∀ e ∈ g.Edges n, e ∈ (levelStep g f (n :: rest) st).queue) ∧
    (∀ (fuel : ℕ) (vis : List (ℤ × ℤ)) (tr : List ((ℤ × ℤ) × List T)) (d : ℤ),
      searchLoop g f maxDepth fuel [] vis tr d = (tr, .ok)) ∧
    (∀ (fuel : ℕ) (queue : List (spatialGridNode T)) (vis : List (ℤ × ℤ))
      (tr : List ((ℤ × ℤ) × List T)) (d : ℤ), queue ≠ [] → d > maxDepth →
      searchLoop g f maxDepth fuel queue vis tr d = (tr, .maxDepth)) := by
  refine ⟨?_, ?_, ?_, ?_⟩
  · exact searchLoop_nodup g f maxDepth _ _ _ _ _ (by simp) (by simp)
  · intro n rest st hvis hf e he
    rw [levelStep, if_neg hvis, hf]
    exact levelStep_queue_mono g f rest _ e (List.mem_append_right _ he)
  · intro fuel vis tr d
    cases fuel <;> rfl
  · intro fuel queue vis tr d hq hd
    have hne : queue.isEmpty = false := by
      cases queue with
      | nil => exact absurd rfl hq
      | cons a l => rfl
    cases fuel with
    | zero =>
      rw [searchLoop, hne]
      simp [hd]
    | succ fuel =>
      rw [searchLoop, hne]
      simp [hd]

theorem C5_search_amended_witness :
    (((NewSpatialGrid ℤ 2 2 10).Search 5 5 5
        (fun _ => (none : Option Unit))).1.map Prod.fst).Nodup ∧
    searchLoop (NewSpatialGrid ℤ 2 2 10) (fun _ => (none : Option Unit)) 5 3
      [(NewSpatialGrid ℤ 2 2 10).NodeAtPosition 5 5] [] [] 7 = ([], .maxDepth) :=
  ⟨(C5_search_amended (NewSpatialGrid ℤ 2 2 10) (fun _ => (none : Option Unit))
      5 5 5).1,
    (C5_search_amended (NewSpatialGrid ℤ 2 2 10) (fun _ => (none : Option Unit))
      5 5 5).2.2.2 3 [(NewSpatialGrid ℤ 2 2 10).NodeAtPosition 5 5] [] [] 7
      (by with_unfolding_all decide) (by decide)⟩

/-! ## C6: deleting a non-existent occupant -/

/-- C6 (code bug): deleting a value that matches no occupant leaves every
cell bucket untouched, but the grid's item counter is still decremented,
so `Size` changes — here from `0` to `-1` on an empty 1×1 grid, where the
claimed no-op behavior would leave `Size` at `0`. -/
theorem C6_delete_noop_code_bug :
    (((NewSpatialGrid ℤ 1 1 1).Delete 0 (NewRectangle (NewVector 0 0) 1 1)).Nodes =
      (NewSpatialGrid ℤ 1 1 1).Nodes) ∧
    (NewSpatialGrid ℤ 1 1 1).Size = 0 ∧
    ((NewSpatialGrid ℤ 1 1 1).Delete 0 (NewRectangle (NewVector 0 0) 1 1)).Size = -1 := by
  refine ⟨by with_unfolding_all decide, rfl, by with_unfolding_all decide⟩

/-! ## C8: Drop resets the whole grid -/

/-- C8: after `Drop` the grid's item counter (hence `Size`) is zero and
every cell holds a fresh empty bucket whose reference rectangle is
recomputed from its grid coordinates and the chunk size; in particular
every cell's weight is `0` and its occupant list is empty. -/
theorem C8_drop_resets {T : Type} (g : SpatialGrid T) :
    g.Drop.Size = 0 ∧
    ∀ i j : ℕ, i < g.SizeX → j < g.SizeY →
      nodeAt g.Drop (i : ℤ) (j : ℤ) =
        newSpatialGridNode (i : ℤ) (j : ℤ) (cellRect g.ChunkSize i j) ∧
      (nodeAt g.Drop (i : ℤ) (j : ℤ)).weight = .fin 0 ∧
      (nodeAt g.Drop (i : ℤ) (j : ℤ)).Items = [] := by
  refine ⟨rfl, fun i j hi hj => ?_⟩
  rw [nodeAt_drop g hi hj]
  exact ⟨rfl, rfl, rfl⟩

/-! ## C9: the cell-inspection accessors are not total -/

/-- C9: `GetItemsAtLocation` and `GetLocationWeight` perform no bounds
checking or clamping: any index outside `[0, sizeX-1] × [0, sizeY-1]`
makes the array access fail (embedded as `none`), while every in-range
index pair succeeds on a well-formed grid. -/
theorem C9_accessors_unchecked {T : Type} (g : SpatialGrid T) (hwf : WF g) (x y : ℤ) :
    ((x < 0 ∨ (g.SizeX : ℤ) ≤ x ∨ y < 0 ∨ (g.SizeY : ℤ) ≤ y) →
      g.GetItemsAtLocation x y = none ∧ g.GetLocationWeight x y = none) ∧
    ((0 ≤ x ∧ x < (g.SizeX : ℤ) ∧ 0 ≤ y ∧ y < (g.SizeY : ℤ)) →
      (g.GetItemsAtLocation x y).isSome ∧ (g.GetLocationWeight x y).isSome) := by
  constructor
  · intro hout
    by_cases hneg : x < 0 ∨ y < 0
    · constructor
      · simp only [SpatialGrid.GetItemsAtLocation, if_pos hneg]
      · simp only [SpatialGrid.GetLocationWeight, if_pos hneg]
    push_neg at hneg
    have hcond : ¬(x < 0 ∨ y < 0) := by push_neg; omega
    by_cases hxr : (g.SizeX : ℤ) ≤ x
    · have hlen : g.Nodes.length ≤ x.toNat := by
        rw [hwf.1]; omega
      have hrow : g.Nodes[x.toNat]? = none := List.getElem?_eq_none hlen
      constructor
      · simp only [SpatialGrid.GetItemsAtLocation, if_neg hcond, hrow,
          Option.none_bind]
      · simp only [SpatialGrid.GetLocationWeight, if_neg hcond, hrow,
          Option.none_bind]
    · have hyr : (g.SizeY : ℤ) ≤ y := by
        rcases hout with h | h | h | h <;> omega
      have hxlt : x.toNat < g.Nodes.length := by rw [hwf.1]; omega
      have hrow : g.Nodes[x.toNat]? = some (g.Nodes.getD x.toNat []) := by
        rw [List.getD_eq_getElem _ _ hxlt, List.getElem?_eq_getElem hxlt]
      have hrlen : (g.Nodes.getD x.toNat []).length = g.SizeY :=
        (hwf.2 x.toNat (by omega)).1
      have hcol : (g.Nodes.getD x.toNat [])[y.toNat]? = none :=
        List.getElem?_eq_none (by rw [hrlen]; omega)
      constructor
      · simp only [SpatialGrid.GetItemsAtLocation, if_neg hcond, hrow,
          Option.some_bind, hcol, Option.map_none']
      · simp only [SpatialGrid.GetLocationWeight, if_neg hcond, hrow,
          Option.some_bind, hcol, Option.map_none']
  · rintro ⟨hx0, hxr, hy0, hyr⟩
    have hcond : ¬(x < 0 ∨ y < 0) := by push_neg; omega
    have hxlt : x.toNat < g.Nodes.length := by rw [hwf.1]; omega
    have hrow : g.Nodes[x.toNat]? = some (g.Nodes.getD x.toNat []) := by
      rw [List.getD_eq_getElem _ _ hxlt, List.getElem?_eq_getElem hxlt]
    have hrlen : (g.Nodes.getD x.toNat []).length = g.SizeY :=
      (hwf.2 x.toNat (by omega)).1
    have hylt : y.toNat < (g.Nodes.getD x.toNat []).length := by rw [hrlen]; omega
    have hcol : (g.Nodes.getD x.toNat [])[y.toNat]? =
        some ((g.Nodes.getD x.toNat []).getD y.toNat
          (newSpatialGridNode 0 0 (cellRect g.ChunkSize 0 0))) := by
      rw [List.getD_eq_getElem _ _ hylt, List.getElem?_eq_getElem hylt]
    constructor
    · simp only [SpatialGrid.GetItemsAtLocation, if_neg hcond, hrow,
        Option.some_bind, hcol, Option.map_some', Option.isSome_some]
    · simp only [SpatialGrid.GetLocationWeight, if_neg hcond, hrow,
        Option.some_bind, hcol, Option.map_some', Option.isSome_some]

theorem C9_accessors_unchecked_witness :
    ((NewSpatialGrid ℤ 2 2 4).GetItemsAtLocation 2 0 = none ∧
      (NewSpatialGrid ℤ 2 2 4).GetLocationWeight 2 0 = none) ∧
    (((NewSpatialGrid ℤ 2 2 4).GetItemsAtLocation 1 1).isSome ∧
      ((NewSpatialGrid ℤ 2 2 4).GetLocationWeight 1 1).isSome) :=
  ⟨(C9_accessors_unchecked (NewSpatialGrid ℤ 2 2 4) (by with_unfolding_all decide)
      2 0).1 (by decide),
    (C9_accessors_unchecked (NewSpatialGrid ℤ 2 2 4) (by with_unfolding_all decide)
      1 1).2 (by decide)⟩

/-! ## C1: weight accounting -/

/-- C1 counterexample: on a 1×1 grid with chunk size 1, inserting an
occupant with an infinite multiplier (weight `+inf`) and then deleting it
leaves the cell weight at `nan` (`inf - inf`), which is neither the sum of
the (now empty) occupant list's contributions nor the prior weight `0` —
so the invariant as claimed fails for infinite contributed weights. -/
theorem C1_weight_accounting_counterexample :
    ((nodeAt (((NewSpatialGrid ℤ 1 1 1).Insert 0
        (NewRectangle (NewVector (1 / 2) (1 / 2)) 1 1) .inf).Delete 0
        (NewRectangle (NewVector (1 / 2) (1 / 2)) 1 1)) 0 0).weight ≠
      gfSum (((nodeAt (((NewSpatialGrid ℤ 1 1 1).Insert 0
        (NewRectangle (NewVector (1 / 2) (1 / 2)) 1 1) .inf).Delete 0
        (NewRectangle (NewVector (1 / 2) (1 / 2)) 1 1)) 0 0).Items).map
        (·.weight))) ∧
    (nodeAt (NewSpatialGrid ℤ 1 1 1) 0 0).weight = .fin 0 ∧
    ((nodeAt (((NewSpatialGrid ℤ 1 1 1).Insert 0
        (NewRectangle (NewVector (1 / 2) (1 / 2)) 1 1) .inf).Delete 0
        (NewRectangle (NewVector (1 / 2) (1 / 2)) 1 1)) 0 0).weight = .nan) := by
  refine ⟨by with_unfolding_all decide, by with_unfolding_all decide,
    by with_unfolding_all decide⟩

theorem C8_drop_resets_witness :
    ((NewSpatialGrid ℤ 2 2 4).Insert 5 (NewRectangle (NewVector 2 2) 4 4)
        (.fin 3)).Drop.Size = 0 ∧
    (nodeAt ((NewSpatialGrid ℤ 2 2 4).Insert 5 (NewRectangle (NewVector 2 2) 4 4)
        (.fin 3)).Drop ((0 : ℕ) : ℤ) ((0 : ℕ) : ℤ)).Items = [] :=
  ⟨(C8_drop_resets _).1,
    (((C8_drop_resets ((NewSpatialGrid ℤ 2 2 4).Insert 5
      (NewRectangle (NewVector 2 2) 4 4) (.fin 3))).2 0 0
      (by decide) (by decide)).2.2)⟩

end Lattice
